import Mathlib

/-!
# Analysis ingestion use case of horusec-platform

A shallow embedding of `api/internal/usecases/analysis/analysis.go`:
the version detector `isVersion1`, the decoder `DecodeAnalysisDataFromIoRead`
with `parseBodyToAnalysis`, and the validator `validateAnalysisData`,
`validateAnalysisToCLIv2`, `validateVulnerabilities` and
`setupValidationVulnerabilities`, together with the parts of the Go standard
library (`strings.EqualFold`) and of ozzo-validation (`ValidateStruct`,
`Validate`, `Required`, `NilOrNotEmpty`, `In`, `By`, `is.UUID`, `Length`) that
they call; and of `LoginCredentials.Validate` of
`auth/internal/entities/authentication/login_credentials.go`.
-/

namespace Horusec

/-! ## `strings.EqualFold` -/

/-- Runes of a Go string, as `strings.EqualFold` reads them one by one. A byte
that is not valid UTF-8 is read as the rune U+FFFD, itself a code point, so a
list of code points covers every Go string. -/
def runes (s : String) : List Nat := s.toList.map Char.toNat

/-- Constant `utf8.RuneSelf`: runes below it are single ASCII bytes. -/
def RuneSelf : Nat := 128

/-- Table `unicode.asciiFold`: the next rune of the simple-folding orbit of an
ASCII rune. Letters map to their other case, except that `k` continues to the
Kelvin sign U+212A and `s` to the long s U+017F; every other rune maps to
itself. -/
def asciiFold (r : Nat) : Nat :=
  if r = 107 then 0x212A
  else if r = 115 then 0x17F
  else if 65 ≤ r ∧ r ≤ 90 then r + 32
  else if 97 ≤ r ∧ r ≤ 122 then r - 32
  else r

/-- Function `unicode.SimpleFold`: the ASCII table for runes below
`utf8.RuneSelf`; for the other runes the Unicode tables `caseOrbit` and
`CaseRanges`, which are taken as the parameter `unicodeFold`. -/
def SimpleFold (unicodeFold : Nat → Nat) (r : Nat) : Nat :=
  if r < RuneSelf then asciiFold r else unicodeFold r

/-- Bound on the orbit walk of `foldWalk`: an orbit of Unicode simple case
folding has at most four runes. -/
def maxOrbit : Nat := 4

/-- The loop `for r != sr && r < tr { r = unicode.SimpleFold(r) }` of
`strings.EqualFold`, cut after the given number of steps. -/
def foldWalk (unicodeFold : Nat → Nat) (sr tr : Nat) : Nat → Nat → Nat
  | 0, r => r
  | n + 1, r =>
    if r ≠ sr ∧ r < tr then foldWalk unicodeFold sr tr n (SimpleFold unicodeFold r) else r

/-- One round of the loop of `strings.EqualFold` on the runes `sr` and `tr`:
`true` when the loop continues, `false` when `EqualFold` returns false. -/
def foldRune (unicodeFold : Nat → Nat) (sr tr : Nat) : Bool :=
  -- Easy case.
  if tr = sr then true
  else
    -- Make sr < tr to simplify what follows.
    let lo := if tr < sr then tr else sr
    let hi := if tr < sr then sr else tr
    -- Fast check for ASCII.
    if hi < RuneSelf then
      decide (65 ≤ lo ∧ lo ≤ 90 ∧ hi = lo + 97 - 65)
    else
      -- General case.
      decide (foldWalk unicodeFold lo hi maxOrbit (SimpleFold unicodeFold lo) = hi)

/-- The rune loop of `strings.EqualFold`: it runs while both strings are
non-empty, and at the end the strings are equal when both are empty. -/
def equalFoldRunes (unicodeFold : Nat → Nat) : List Nat → List Nat → Bool
  | [], [] => true
  | [], _ :: _ => false
  | _ :: _, [] => false
  | sr :: s, tr :: t => if foldRune unicodeFold sr tr then equalFoldRunes unicodeFold s t else false

/-- Function `strings.EqualFold(s, t)`. -/
def EqualFold (unicodeFold : Nat → Nat) (s t : String) : Bool :=
  equalFoldRunes unicodeFold (runes s) (runes t)

/-! ## Version detector -/

/-- Struct `UseCases`. -/
structure UseCases where
  versionsOfV1 : List String
  deriving DecidableEq, Repr

/-- Constructor `NewAnalysisUseCases`. -/
def NewAnalysisUseCases : UseCases :=
  { versionsOfV1 := ["v1.7.0", "v1.8.0", "v1.8.1", "v1.8.2", "v1.8.3", "v1.8.4",
      "v1.9.0", "v1.10.0", "v1.10.1", "v1.10.2", "v1.10.3"] }

/-- The loop of `isVersion1` over the remaining versions. -/
def isVersion1Loop (unicodeFold : Nat → Nat) (versionSent : String) : List String → Bool
  | [] => false
  | versionV1 :: rest =>
    if EqualFold unicodeFold versionV1 versionSent then true
    else isVersion1Loop unicodeFold versionSent rest

/-- Method `(au *UseCases) isVersion1`. -/
def UseCases.isVersion1 (unicodeFold : Nat → Nat) (au : UseCases) (versionSent : String) : Bool :=
  isVersion1Loop unicodeFold versionSent au.versionsOfV1

/-! ## Data model (horusec-devkit entities) -/

/-- Type `time.Time`: an instant, as seconds since January 1 of year 1 UTC and
nanoseconds within the second. -/
structure Time where
  sec : Int
  nsec : Nat
  deriving DecidableEq, Repr

/-- Method `(t Time) IsZero`: the zero time instant. -/
def Time.IsZero (t : Time) : Bool := t.sec == 0 && t.nsec == 0

/-- Struct `vulnerability.Vulnerability`, with the fields that
`setupValidationVulnerabilities` reads. Each enumerated field is a Go string
type; it is kept as its string value. The Go field `Type` is written `Type_`. -/
structure Vulnerability where
  SecurityTool : String
  VulnHash : String
  Confidence : String
  Language : String
  Severity : String
  Type_ : String
  deriving DecidableEq, Repr

/-- Struct `analysisEntity.AnalysisVulnerabilities`: one finding of a report. -/
structure AnalysisVulnerabilities where
  Vulnerability : Vulnerability
  deriving DecidableEq, Repr

/-- Type `uuid.UUID` of google/uuid, an array of 16 bytes, kept as the 128-bit
number that the bytes spell, the first byte first. -/
structure UUID where
  value : Fin (2 ^ 128)
  deriving DecidableEq, Repr

/-- Variable `uuid.Nil`: the zero value of `uuid.UUID`, which a body without an
`id` leaves in the field. -/
def UUID.Nil : UUID := { value := ⟨0, by decide⟩ }

/-- A digit of `encoding/hex`: the character of the table `0123456789abcdef` at
the given index. -/
def hexDigit (n : Nat) : Char :=
  if n < 10 then Char.ofNat (48 + n) else Char.ofNat (87 + n)

/-- The hexadecimal digit of a `uuid.UUID` at a position from 0 to 31;
position 0 is the high half of the first byte. -/
def UUID.digit (u : UUID) (i : Nat) : Nat := (u.value.val / 16 ^ (31 - i)) % 16

/-- The characters of `count` hexadecimal digits of a `uuid.UUID`, from the
position `first` on, as `hex.Encode` writes them. -/
def UUID.hex (u : UUID) (first count : Nat) : List Char :=
  (List.range count).map (fun k => hexDigit (u.digit (first + k)))

/-- Method `(uuid UUID) String`, the form
`xxxxxxxx-xxxx-xxxx-xxxx-xxxxxxxxxxxx`; it is also what the method `Value` of
`driver.Valuer` returns. -/
def UUID.toString (u : UUID) : String :=
  String.mk (u.hex 0 8 ++ '-' :: u.hex 8 4 ++ '-' :: u.hex 12 4 ++ '-' :: u.hex 16 4 ++
    '-' :: u.hex 20 12)

/-- Struct `analysisEntity.Analysis`, with the fields that
`validateAnalysisToCLIv2` reads. `ID` is a `uuid.UUID`: a body whose `id` is
not the text of a UUID fails parsing, and a body without `id` leaves
`uuid.Nil`. -/
structure Analysis where
  ID : UUID
  Status : String
  CreatedAt : Time
  FinishedAt : Time
  AnalysisVulnerabilities : List AnalysisVulnerabilities
  deriving DecidableEq, Repr

/-- Struct `cli.AnalysisData`. `Analysis` is a pointer: `none` is nil. -/
structure AnalysisData where
  Analysis : Option Analysis
  RepositoryName : String
  deriving DecidableEq, Repr

/-! ## Enumeration registry (horusec-devkit constants) -/

/-- Names of the constants of package `tools` listed by `sliceTools`. -/
inductive ToolName
  | GoSec | SecurityCodeScan | GitLeaks | Brakeman | NpmAudit | Safety | Bandit
  | YarnAudit | TfSec | HorusecEngine | Semgrep | Flawfinder | PhpCS | ShellCheck
  | BundlerAudit | Sobelow | MixAudit | OwaspDependencyCheck | DotnetCli | Nancy
  deriving DecidableEq, Repr

/-- Names of the constants of package `languages` listed by `sliceLanguages`. -/
inductive LanguageName
  | Go | CSharp | Dart | Ruby | Python | Java | Kotlin | Javascript | Leaks | HCL
  | PHP | Typescript | C | HTML | Generic | Yaml | Shell | Elixir | Nginx | Swift
  deriving DecidableEq, Repr

/-- Names of the constants of package `severities` listed by `sliceSeverities`. -/
inductive SeverityName
  | Critical | High | Medium | Low | Info | Unknown
  deriving DecidableEq, Repr

/-- Names of the constants of package `vulnerabilityEnum` listed by
`sliceVulnerabilitiesType`. -/
inductive VulnerabilityTypeName
  | FalsePositive | RiskAccepted | Vulnerability | Corrected
  deriving DecidableEq, Repr

/-- Names of the constants of package `analysisEnum` listed by
`sliceAnalysisStatus`. -/
inductive StatusName
  | Running | Success | Error
  deriving DecidableEq, Repr

/-- Names of the constants of package `confidence` listed by `sliceConfidence`. -/
inductive ConfidenceName
  | High | Medium | Low
  deriving DecidableEq, Repr

/-- String values of the horusec-devkit enumeration constants. The packages
that declare them are outside this repository, so the values are parameters. -/
structure Registry where
  tools : ToolName → String
  languages : LanguageName → String
  severities : SeverityName → String
  vulnerabilityEnum : VulnerabilityTypeName → String
  analysisEnum : StatusName → String
  confidence : ConfidenceName → String

/-- Method `sliceTools`. -/
def sliceTools (K : Registry) : List String :=
  [K.tools .GoSec, K.tools .SecurityCodeScan, K.tools .GitLeaks, K.tools .Brakeman,
   K.tools .NpmAudit, K.tools .Safety, K.tools .Bandit, K.tools .YarnAudit, K.tools .TfSec,
   K.tools .HorusecEngine, K.tools .Semgrep, K.tools .Flawfinder, K.tools .PhpCS,
   K.tools .ShellCheck, K.tools .BundlerAudit, K.tools .Sobelow, K.tools .MixAudit,
   K.tools .OwaspDependencyCheck, K.tools .DotnetCli, K.tools .Nancy]

/-- Method `sliceLanguages`. -/
def sliceLanguages (K : Registry) : List String :=
  [K.languages .Go, K.languages .CSharp, K.languages .Dart, K.languages .Ruby,
   K.languages .Python, K.languages .Java, K.languages .Kotlin, K.languages .Javascript,
   K.languages .Leaks, K.languages .HCL, K.languages .PHP, K.languages .Typescript,
   K.languages .C, K.languages .HTML, K.languages .Generic, K.languages .Yaml,
   K.languages .Shell, K.languages .Elixir, K.languages .Nginx, K.languages .Swift]

/-- Method `sliceSeverities`. -/
def sliceSeverities (K : Registry) : List String :=
  [K.severities .Critical, K.severities .High, K.severities .Medium, K.severities .Low,
   K.severities .Info, K.severities .Unknown]

/-- Method `sliceVulnerabilitiesType`. -/
def sliceVulnerabilitiesType (K : Registry) : List String :=
  [K.vulnerabilityEnum .FalsePositive, K.vulnerabilityEnum .RiskAccepted,
   K.vulnerabilityEnum .Vulnerability, K.vulnerabilityEnum .Corrected]

/-- Method `sliceAnalysisStatus`. -/
def sliceAnalysisStatus (K : Registry) : List String :=
  [K.analysisEnum .Running, K.analysisEnum .Success, K.analysisEnum .Error]

/-- Method `sliceConfidence`. -/
def sliceConfidence (K : Registry) : List String :=
  [K.confidence .High, K.confidence .Medium, K.confidence .Low]

/-! ## ozzo-validation -/

/-- Error values returned by the rules used here: `validation.ErrRequired`,
`validation.ErrNilOrNotEmpty`, `validation.ErrInInvalid` and `is.ErrUUID`, and
the five errors of `validation.Length`. -/
inductive RuleError
  | ErrRequired | ErrNilOrNotEmpty | ErrInInvalid | ErrUUID
  | ErrLengthTooLong | ErrLengthTooShort | ErrLengthInvalid | ErrLengthOutOfRange
  | ErrLengthEmptyRequired
  deriving DecidableEq, Repr

/-- How the rules see a value: `isNil` is the second result of
`validation.Indirect`, `IsEmpty` is `validation.IsEmpty`. -/
class Value (α : Type) where
  isNil : α → Bool
  IsEmpty : α → Bool

/-- A string is never nil and is empty when its length is zero. -/
instance : Value String where
  isNil := fun _ => false
  IsEmpty := fun s => s.length == 0

/-- A `time.Time` is a struct, never nil, and is empty when `IsZero`. -/
instance : Value Time where
  isNil := fun _ => false
  IsEmpty := fun t => t.IsZero

/-- A `uuid.UUID` implements `driver.Valuer`: `validation.Indirect` replaces it
by the string that `Value` returns, which is not nil and is empty when its
length is zero. -/
instance : Value UUID where
  isNil := fun _ => false
  IsEmpty := fun u => u.toString.length == 0

/-- A pointer to a struct is nil or points to a struct, which is not empty. -/
instance : Value (Option Analysis) where
  isNil := fun p => p.isNone
  IsEmpty := fun p => p.isNone

/-- Rule `validation.Required`. -/
def Required {α : Type} [Value α] (value : α) : Option RuleError :=
  if Value.isNil value || Value.IsEmpty value then some RuleError.ErrRequired else none

/-- Rule `validation.NilOrNotEmpty`. -/
def NilOrNotEmpty {α : Type} [Value α] (value : α) : Option RuleError :=
  if !Value.isNil value && Value.IsEmpty value then some RuleError.ErrNilOrNotEmpty else none

/-- Rule `validation.In(elements...)`: a nil or empty value is skipped, any
other value has to be equal to one of the elements. -/
def In {α : Type} [Value α] [DecidableEq α] (elements : List α) (value : α) : Option RuleError :=
  if Value.isNil value || Value.IsEmpty value then none
  else if elements.contains value then none
  else some RuleError.ErrInInvalid

/-- A character of the class `[0-9a-f]`. -/
def isLowerHex (c : Char) : Bool :=
  (48 ≤ c.toNat && c.toNat ≤ 57) || (97 ≤ c.toNat && c.toNat ≤ 102)

/-- Function `govalidator.IsUUID`: a match of the regular expression
`^[0-9a-f]{8}-[0-9a-f]{4}-[0-9a-f]{4}-[0-9a-f]{4}-[0-9a-f]{12}$`. -/
def IsUUID (str : String) : Bool :=
  let cs := str.toList
  cs.length == 36 &&
    (List.range 36).all (fun i =>
      if i = 8 ∨ i = 13 ∨ i = 18 ∨ i = 23 then cs.get? i == some '-'
      else (cs.get? i).any isLowerHex)

/-- The string on which a string rule runs: `validation.EnsureString` of what
`validation.Indirect` returns for the value. -/
class StringValue (α : Type) where
  EnsureString : α → String

/-- A string is its own string. -/
instance : StringValue String where
  EnsureString := fun s => s

/-- The string of a `uuid.UUID` is the one that `Value` returns. -/
instance : StringValue UUID where
  EnsureString := fun u => u.toString

/-- Rule `is.UUID`, a string rule: an empty value is skipped. -/
def is.UUID {α : Type} [Value α] [StringValue α] (value : α) : Option RuleError :=
  if Value.isNil value || Value.IsEmpty value then none
  else if IsUUID (StringValue.EnsureString value) then none
  else some RuleError.ErrUUID

/-- Rule `validation.By(f)`. -/
def By {α ε : Type} (f : α → Option ε) (value : α) : Option ε := f value

/-- Function `validation.Validate(value, rules...)`: the rules run in order and
the first error is returned. None of the field types validated here declares a
`Validate` method, so nothing runs after the rules. -/
def Validate {α ε : Type} (value : α) : List (α → Option ε) → Option ε
  | [] => none
  | rule :: rules =>
    match rule value with
    | some err => some err
    | none => Validate value rules

/-- Function `validation.Field(fieldPtr, rules...)` together with the call of
`Validate` that `ValidateStruct` makes for it: the name of the field and the
error of its rules. -/
def Field {φ α ε : Type} (name : φ) (value : α) (rules : List (α → Option ε)) : φ × Option ε :=
  (name, Validate value rules)

/-- Function `validation.ValidateStruct`: every field is validated, the errors
are collected under the names of their fields, and the result is nil when no
field has an error. -/
def ValidateStruct {φ ε : Type} (fields : List (φ × Option ε)) : Option (List (φ × ε)) :=
  let errs := fields.filterMap (fun fr => fr.2.map (fun err => (fr.1, err)))
  if errs.isEmpty then none else some errs

/-! ## Errors -/

/-- Fields of `vulnerability.Vulnerability` named in a `validation.Errors`. -/
inductive VulnerabilityField
  | SecurityTool | VulnHash | Confidence | Language | Severity | Type_
  deriving DecidableEq, Repr

/-- Fields of `analysisEntity.Analysis` named in a `validation.Errors`. -/
inductive AnalysisField
  | ID | Status | CreatedAt | FinishedAt | AnalysisVulnerabilities
  deriving DecidableEq, Repr

/-- Fields of `cli.AnalysisData` named in a `validation.Errors`. -/
inductive AnalysisDataField
  | Analysis
  deriving DecidableEq, Repr

/-- The `validation.Errors` of one vulnerability. -/
abbrev VulnerabilityErrors := List (VulnerabilityField × RuleError)

/-- Error of one field of an `Analysis`: the error of a rule, or the
`validation.Errors` of a vulnerability returned through `validation.By`. -/
inductive AnalysisFieldError
  | rule (err : RuleError)
  | Errors (errs : VulnerabilityErrors)
  deriving DecidableEq, Repr

/-- The `validation.Errors` of an `Analysis`. -/
abbrev AnalysisErrors := List (AnalysisField × AnalysisFieldError)

/-- Values of the Go `error` returned by the use case: `enums.ErrorBodyEmpty`,
another error of `parser.ParseBodyToEntity`, the `validation.Errors` of
`validateAnalysisData` and the `validation.Errors` of
`validateAnalysisToCLIv2`. -/
inductive Error
  | ErrorBodyEmpty
  | parser (msg : String)
  | analysisData (errs : List (AnalysisDataField × RuleError))
  | analysis (errs : AnalysisErrors)
  deriving DecidableEq, Repr

/-- Modelled from the spec: the error kinds of section 7, `EmptyBody` (no
request payload), `MalformedPayload` (parse failure) and `ValidationFailure`
(field or enumeration violations). -/
inductive ErrorKind
  | EmptyBody | MalformedPayload | ValidationFailure
  deriving DecidableEq, Repr

/-- Modelled from the spec: the kind of section 7 that an error value has. -/
def Error.kind : Error → ErrorKind
  | Error.ErrorBodyEmpty => ErrorKind.EmptyBody
  | Error.parser _ => ErrorKind.MalformedPayload
  | Error.analysisData _ => ErrorKind.ValidationFailure
  | Error.analysis _ => ErrorKind.ValidationFailure

/-- What a call of a Go function does: it returns, or it panics. -/
inductive Outcome (α : Type)
  | returns (a : α)
  | panics
  deriving DecidableEq, Repr

/-! ## Validator -/

/-- A rule of `RuleError` used on a field of an `Analysis`. -/
def analysisRule {α : Type} (rule : α → Option RuleError) (value : α) : Option AnalysisFieldError :=
  (rule value).map AnalysisFieldError.rule

/-- Method `setupValidationVulnerabilities`. -/
def setupValidationVulnerabilities (K : Registry) (vul : Vulnerability) :
    Option VulnerabilityErrors :=
  ValidateStruct [
    Field VulnerabilityField.SecurityTool vul.SecurityTool [Required, In (sliceTools K)],
    Field VulnerabilityField.VulnHash vul.VulnHash [Required],
    Field VulnerabilityField.Confidence vul.Confidence [Required, In (sliceConfidence K)],
    Field VulnerabilityField.Language vul.Language [Required, In (sliceLanguages K)],
    Field VulnerabilityField.Severity vul.Severity [Required, In (sliceSeverities K)],
    Field VulnerabilityField.Type_ vul.Type_ [Required, In (sliceVulnerabilitiesType K)]]

/-- The loop `for key := range analysisVulnerabilities` of
`validateVulnerabilities`: the error of the first vulnerability that has one. -/
def validateVulnerabilitiesLoop (K : Registry) :
    List AnalysisVulnerabilities → Option VulnerabilityErrors
  | [] => none
  | av :: rest =>
    match setupValidationVulnerabilities K av.Vulnerability with
    | some err => some err
    | none => validateVulnerabilitiesLoop K rest

/-- Method `validateVulnerabilities`: the rule function, which does not read the
value it is given. -/
def validateVulnerabilities (K : Registry)
    (analysisVulnerabilities : List AnalysisVulnerabilities)
    (_value : List AnalysisVulnerabilities) : Option AnalysisFieldError :=
  (validateVulnerabilitiesLoop K analysisVulnerabilities).map AnalysisFieldError.Errors

/-- The `ValidateStruct` call of `validateAnalysisToCLIv2` on a non-nil
analysis. -/
def validateAnalysisStruct (K : Registry) (analysis : Analysis) : Option AnalysisErrors :=
  ValidateStruct [
    Field AnalysisField.ID analysis.ID [analysisRule Required, analysisRule is.UUID],
    Field AnalysisField.Status analysis.Status
      [analysisRule Required, analysisRule (In (sliceAnalysisStatus K))],
    Field AnalysisField.CreatedAt analysis.CreatedAt
      [analysisRule Required, analysisRule NilOrNotEmpty],
    Field AnalysisField.FinishedAt analysis.FinishedAt
      [analysisRule Required, analysisRule NilOrNotEmpty],
    Field AnalysisField.AnalysisVulnerabilities analysis.AnalysisVulnerabilities
      [By (validateVulnerabilities K analysis.AnalysisVulnerabilities)]]

/-- Method `validateAnalysisToCLIv2`. The arguments `&analysis.ID` and the
others are evaluated before `ValidateStruct` is called, so a nil analysis
panics. -/
def validateAnalysisToCLIv2 (K : Registry) (analysis : Option Analysis) :
    Outcome (Option Error) :=
  match analysis with
  | none => Outcome.panics
  | some analysis => Outcome.returns ((validateAnalysisStruct K analysis).map Error.analysis)

/-- Method `validateAnalysisData`. The argument `&analysisData.Analysis` is
evaluated before `ValidateStruct` is called, so a nil `analysisData` panics. -/
def validateAnalysisData (K : Registry) (analysisData : Option AnalysisData) :
    Outcome (Option Error) :=
  match analysisData with
  | none => Outcome.panics
  | some analysisData =>
    match ValidateStruct [Field AnalysisDataField.Analysis analysisData.Analysis [Required]] with
    | some err => Outcome.returns (some (Error.analysisData err))
    | none => validateAnalysisToCLIv2 K analysisData.Analysis

/-! ## Decoder -/

/-- The request body, an `io.ReadCloser`: the bytes it delivers. -/
structure Body where
  bytes : List Nat
  deriving DecidableEq, Repr

/-- Type `*netHTTP.Request`: the header, as a map from canonical keys to their
values, and the body, `none` when `r.Body` is nil. -/
structure Request where
  Header : List (String × List String)
  Body : Option Body
  deriving DecidableEq, Repr

/-- Function `validHeaderFieldByte` of `net/textproto`: the characters of an
HTTP token, which are the letters, the digits and fifteen punctuation marks,
listed here by their codes. -/
def validHeaderFieldByte (c : Char) : Bool :=
  (48 ≤ c.toNat && c.toNat ≤ 57) || (65 ≤ c.toNat && c.toNat ≤ 90) ||
  (97 ≤ c.toNat && c.toNat ≤ 122) ||
  [33, 35, 36, 37, 38, 39, 42, 43, 45, 46, 94, 95, 96, 124, 126].contains c.toNat

/-- The loop of `canonicalMIMEHeaderKey`: a letter is put in upper case at the
start and after a dash, and in lower case elsewhere. -/
def canonicalLoop : Bool → List Char → List Char
  | _, [] => []
  | upper, c :: rest =>
    let d := if upper then c.toUpper else c.toLower
    d :: canonicalLoop (d == '-') rest

/-- Function `textproto.CanonicalMIMEHeaderKey`: a key with a character that is
not valid in a header field is returned unchanged. -/
def CanonicalMIMEHeaderKey (s : String) : String :=
  if s.toList.all validHeaderFieldByte then String.mk (canonicalLoop true s.toList) else s

/-- Method `Header.Get`: the first value stored under the canonical form of
the key, or the empty string. -/
def Header.Get (h : List (String × List String)) (key : String) : String :=
  match h.lookup (CanonicalMIMEHeaderKey key) with
  | some (v :: _) => v
  | _ => ""

/-- The expression `r.Header.Get("X-Horusec-CLI-Version")` of
`parseBodyToAnalysis`. -/
def Request.cliVersion (r : Request) : String :=
  Header.Get r.Header "X-Horusec-CLI-Version"

/-- Code called by the use case that is outside this file: the Unicode tables of
`unicode.SimpleFold`, the values of the enumeration constants, the function
`parser.ParseBodyToEntity` at the two target types, and the method
`ParseDataV1ToV2` of `analysisv1.AnalysisCLIDataV1` (the type `V1`). Decoding
into `&analysisData` may leave the pointer nil, and the parser may fail with
any error value, `enums.ErrorBodyEmpty` included. -/
structure Env (V1 : Type) where
  unicodeFold : Nat → Nat
  registry : Registry
  ParseBodyToEntityV1 : Body → Except Error V1
  ParseDataV1ToV2 : V1 → Option AnalysisData
  ParseBodyToEntity : Body → Except Error (Option AnalysisData)

/-- Method `parseBodyToAnalysis`, called with a non-nil body. -/
def UseCases.parseBodyToAnalysis {V1 : Type} (E : Env V1) (au : UseCases) (r : Request)
    (body : Body) : Except Error (Option AnalysisData) :=
  if au.isVersion1 E.unicodeFold r.cliVersion then
    match E.ParseBodyToEntityV1 body with
    | Except.error err => Except.error err
    | Except.ok analysisDataV1 => Except.ok (E.ParseDataV1ToV2 analysisDataV1)
  else
    match E.ParseBodyToEntity body with
    | Except.error err => Except.error err
    | Except.ok analysisData => Except.ok analysisData

/-- Method `DecodeAnalysisDataFromIoRead`: the returned pair
`(analysisData, err)`. -/
def UseCases.DecodeAnalysisDataFromIoRead {V1 : Type} (E : Env V1) (au : UseCases)
    (r : Request) : Outcome (Option AnalysisData × Option Error) :=
  match r.Body with
  | none => Outcome.returns (none, some Error.ErrorBodyEmpty)
  | some body =>
    match au.parseBodyToAnalysis E r body with
    | Except.error err => Outcome.returns (none, some err)
    | Except.ok analysisData =>
      match validateAnalysisData E.registry analysisData with
      | Outcome.panics => Outcome.panics
      | Outcome.returns err => Outcome.returns (analysisData, err)

/-! ## Login credentials (`auth/internal/entities/authentication`) -/

/-- Modelled from the spec: the constant `ozzovalidation.Length0` of
horusec-devkit, the lower bound of the length range 0-255 of section 6. -/
def ozzovalidation.Length0 : Nat := 0

/-- Modelled from the spec: the constant `ozzovalidation.Length255` of
horusec-devkit, the upper bound of the length range 0-255 of section 6. -/
def ozzovalidation.Length255 : Nat := 255

/-- Function `buildLengthRuleError(min, max)` of ozzo-validation: the error of
a length rule. -/
def buildLengthRuleError (min max : Nat) : RuleError :=
  if min = 0 ∧ max > 0 then RuleError.ErrLengthTooLong
  else if min > 0 ∧ max = 0 then RuleError.ErrLengthTooShort
  else if min > 0 ∧ max > 0 then
    if min = max then RuleError.ErrLengthInvalid else RuleError.ErrLengthOutOfRange
  else RuleError.ErrLengthEmptyRequired

/-- Rule `validation.Length(min, max)` on a string: an empty value is skipped,
and the length of any other value is its number of bytes
(`LengthOfValue`). -/
def Length (min max : Nat) (value : String) : Option RuleError :=
  if Value.isNil value || Value.IsEmpty value then none
  else
    let l := value.utf8ByteSize
    if (min > 0 ∧ l < min) ∨ (max > 0 ∧ l > max) ∨ (min = 0 ∧ max = 0 ∧ l > 0) then
      some (buildLengthRuleError min max)
    else none

/-- Struct `LoginCredentials`. -/
structure LoginCredentials where
  Username : String
  Password : String
  deriving DecidableEq, Repr

/-- Fields of `LoginCredentials` named in a `validation.Errors`. -/
inductive LoginCredentialsField
  | Username | Password
  deriving DecidableEq, Repr

/-- Method `(l *LoginCredentials) Validate`, on a non-nil receiver. -/
def LoginCredentials.Validate (l : LoginCredentials) :
    Option (List (LoginCredentialsField × RuleError)) :=
  ValidateStruct [
    Field LoginCredentialsField.Username l.Username
      [Required, Length ozzovalidation.Length0 ozzovalidation.Length255],
    Field LoginCredentialsField.Password l.Password
      [Required, Length ozzovalidation.Length0 ozzovalidation.Length255]]

/-! ## Vocabulary of the proofs -/

/-- Lower case of an ASCII letter, on runes. -/
def toLowerRune (r : Nat) : Nat := if 65 ≤ r ∧ r ≤ 90 then r + 32 else r

/-- The runes that occur in the listed versions: `v`, `.` and the digits. -/
def versionRune (c : Nat) : Prop := c = 118 ∨ c = 46 ∨ (48 ≤ c ∧ c ≤ 57)

/-- The registry has no blank constant: every enumeration constant is a
non-empty string. -/
def Registry.NoBlank (K : Registry) : Prop :=
  (∀ c, K.tools c ≠ "") ∧ (∀ c, K.languages c ≠ "") ∧ (∀ c, K.severities c ≠ "") ∧
  (∀ c, K.vulnerabilityEnum c ≠ "") ∧ (∀ c, K.analysisEnum c ≠ "") ∧
  (∀ c, K.confidence c ≠ "")

/-- A string field passes `Required` and `In(elements...)`: it is not empty
and is one of the elements. -/
def inEnum (elements : List String) (value : String) : Prop :=
  value ≠ "" ∧ value ∈ elements

/-- A vulnerability that violates none of the rules of
`setupValidationVulnerabilities`. -/
def validVulnerability (K : Registry) (vul : Vulnerability) : Prop :=
  inEnum (sliceTools K) vul.SecurityTool ∧ vul.VulnHash ≠ "" ∧
  inEnum (sliceConfidence K) vul.Confidence ∧ inEnum (sliceLanguages K) vul.Language ∧
  inEnum (sliceSeverities K) vul.Severity ∧ inEnum (sliceVulnerabilitiesType K) vul.Type_

/-- Modelled from the spec: values of the enumeration constants. Section 4.4
gives the statuses running, success and error, section 8 the tool GoSec, the
confidence HIGH, the language Go, the severity CRITICAL and the disposition
Vulnerability; the other constants are written after the same pattern. -/
def specRegistry : Registry where
  tools
    | .GoSec => "GoSec" | .SecurityCodeScan => "SecurityCodeScan" | .GitLeaks => "GitLeaks"
    | .Brakeman => "Brakeman" | .NpmAudit => "NpmAudit" | .Safety => "Safety"
    | .Bandit => "Bandit" | .YarnAudit => "YarnAudit" | .TfSec => "TfSec"
    | .HorusecEngine => "HorusecEngine" | .Semgrep => "Semgrep" | .Flawfinder => "Flawfinder"
    | .PhpCS => "PhpCS" | .ShellCheck => "ShellCheck" | .BundlerAudit => "BundlerAudit"
    | .Sobelow => "Sobelow" | .MixAudit => "MixAudit"
    | .OwaspDependencyCheck => "OwaspDependencyCheck" | .DotnetCli => "DotnetCli"
    | .Nancy => "Nancy"
  languages
    | .Go => "Go" | .CSharp => "C#" | .Dart => "Dart" | .Ruby => "Ruby" | .Python => "Python"
    | .Java => "Java" | .Kotlin => "Kotlin" | .Javascript => "JavaScript" | .Leaks => "Leaks"
    | .HCL => "HCL" | .PHP => "PHP" | .Typescript => "TypeScript" | .C => "C" | .HTML => "HTML"
    | .Generic => "Generic" | .Yaml => "YAML" | .Shell => "Shell" | .Elixir => "Elixir"
    | .Nginx => "Nginx" | .Swift => "Swift"
  severities
    | .Critical => "CRITICAL" | .High => "HIGH" | .Medium => "MEDIUM" | .Low => "LOW"
    | .Info => "INFO" | .Unknown => "UNKNOWN"
  vulnerabilityEnum
    | .FalsePositive => "False Positive" | .RiskAccepted => "Risk Accepted"
    | .Vulnerability => "Vulnerability" | .Corrected => "Corrected"
  analysisEnum
    | .Running => "running" | .Success => "success" | .Error => "error"
  confidence
    | .High => "HIGH" | .Medium => "MEDIUM" | .Low => "LOW"

/-- An environment whose parser yields the given report for every body, in
both schemas, with the constants of `specRegistry`. -/
def yieldingEnv (analysisData : Option AnalysisData) : Env Unit where
  unicodeFold := fun r => r
  registry := specRegistry
  ParseBodyToEntityV1 := fun _ => Except.ok ()
  ParseDataV1ToV2 := fun _ => analysisData
  ParseBodyToEntity := fun _ => Except.ok analysisData

/-- An environment whose parser rejects every body. -/
def rejectingEnv : Env Unit where
  unicodeFold := fun r => r
  registry := specRegistry
  ParseBodyToEntityV1 := fun _ => Except.error (Error.parser "body is invalid")
  ParseDataV1ToV2 := fun _ => none
  ParseBodyToEntity := fun _ => Except.error (Error.parser "body is invalid")

/-- The finding of the scenario of section 8 of the spec. -/
def specFinding : AnalysisVulnerabilities :=
  { Vulnerability :=
      { SecurityTool := "GoSec", VulnHash := "abc123", Confidence := "HIGH",
        Language := "Go", Severity := "CRITICAL", Type_ := "Vulnerability" } }

/-- The report of the scenario of section 8 of the spec. -/
def specAnalysis : Analysis :=
  { ID := { value := ⟨0x8fa2a3a40b5c4d6e9f70123456789abc, by decide⟩ }, Status := "success",
    CreatedAt := { sec := 63750000000, nsec := 0 },
    FinishedAt := { sec := 63750000060, nsec := 0 },
    AnalysisVulnerabilities := [specFinding] }

/-- The decoded body of the scenario of section 8 of the spec. -/
def specData : AnalysisData :=
  { Analysis := some specAnalysis, RepositoryName := "horusec" }

/-- A finding whose tool is not a constant of `sliceTools`. -/
def unknownToolFinding : AnalysisVulnerabilities :=
  { Vulnerability := { specFinding.Vulnerability with SecurityTool := "UnknownTool" } }

/-- The report of the scenario with a second finding, of an unknown tool. -/
def unknownToolData : AnalysisData :=
  { Analysis := some { specAnalysis with
      AnalysisVulnerabilities := [specFinding, unknownToolFinding] },
    RepositoryName := "horusec" }

/-- The decoded body `{"analysis": null}`: a report whose `Analysis` is nil. -/
def nilAnalysisData : AnalysisData :=
  { Analysis := none, RepositoryName := "" }

/-- The report of the scenario of section 8 of the spec decoded from a body
without `id`: the field holds `uuid.Nil`. -/
def missingIdAnalysis : Analysis :=
  { specAnalysis with ID := UUID.Nil }

/-- An analysis with every field left at its zero value. -/
def blankAnalysis : Analysis :=
  { ID := UUID.Nil, Status := "", CreatedAt := { sec := 0, nsec := 0 },
    FinishedAt := { sec := 0, nsec := 0 }, AnalysisVulnerabilities := [] }

/-- The finding of the scenario with an empty hash. -/
def emptyHashFinding : AnalysisVulnerabilities :=
  { Vulnerability := { specFinding.Vulnerability with VulnHash := "" } }

/-- The report of the scenario with a second finding, of an empty hash. -/
def emptyHashData : AnalysisData :=
  { Analysis := some { specAnalysis with
      AnalysisVulnerabilities := [specFinding, emptyHashFinding] },
    RepositoryName := "horusec" }

/-- A report with two invalid findings: the first has an empty hash, the second
an unknown tool. -/
def twoInvalidData : AnalysisData :=
  { Analysis := some { specAnalysis with
      AnalysisVulnerabilities := [emptyHashFinding, unknownToolFinding] },
    RepositoryName := "horusec" }

/-- An analysis with an empty status, a zero `CreatedAt` and an invalid
finding. -/
def severalViolationsAnalysis : Analysis :=
  { specAnalysis with
    Status := "", CreatedAt := { sec := 0, nsec := 0 },
    AnalysisVulnerabilities := [unknownToolFinding] }

/-- Credentials whose username has 128 characters of two bytes each, 256 bytes
in all. -/
def longUsernameCredentials : LoginCredentials :=
  { Username := String.mk (List.replicate 128 'é'), Password := "secret" }

/-- A request whose body is nil. -/
def absentBodyRequest : Request :=
  { Header := [], Body := none }

/-- A request with a body that declares the legacy version `V1.8.2`. -/
def legacyRequest : Request :=
  { Header := [("X-Horusec-Cli-Version", ["V1.8.2"])], Body := some { bytes := [123, 125] } }

/-- A request with a body whose only header is another one, which carries the
text of a legacy version. -/
def otherHeaderRequest : Request :=
  { Header := [("Content-Type", ["v1.8.2"])], Body := some { bytes := [123, 125] } }

/-- A request with a body that declares the legacy version `v1.10.3` after
another header. -/
def laterHeaderRequest : Request :=
  { Header := [("Content-Type", ["application/json"]),
      ("X-Horusec-Cli-Version", ["v1.10.3", "v2.0.0"])],
    Body := some { bytes := [123, 125] } }

/-- An environment whose parser yields one report for the legacy schema,
through `ParseDataV1ToV2`, and another for the current schema. -/
def schemaEnv (legacy current : Option AnalysisData) : Env Unit where
  unicodeFold := fun r => r
  registry := specRegistry
  ParseBodyToEntityV1 := fun _ => Except.ok ()
  ParseDataV1ToV2 := fun _ => legacy
  ParseBodyToEntity := fun _ => Except.ok current

/-- A request with a body and no header. -/
def plainRequest : Request :=
  { Header := [], Body := some { bytes := [123, 125] } }

/-! ## Version detector: theorems -/

theorem foldRune_versionRune (U : Nat → Nat) (c t : Nat) (hc : versionRune c) :
    foldRune U c t = true ↔ toLowerRune t = c := by
  have hlt : c < 128 := by
    rcases hc with h | h | h <;> omega
  have hfold : ∀ r, r < 128 → SimpleFold U r = asciiFold r := by
    intro r hr
    simp [SimpleFold, RuneSelf, hr]
  unfold foldRune
  by_cases hEq : t = c
  · subst hEq
    simp only [if_true, true_iff]
    unfold toLowerRune
    rcases hc with h | h | h <;> split <;> omega
  · simp only [hEq, if_false]
    by_cases hlo : t < c
    · -- both runes are ASCII
      have h1 : c < RuneSelf := hlt
      simp only [hlo, if_true, h1, decide_eq_true_eq]
      unfold toLowerRune
      rcases hc with h | h | h <;> split <;> omega
    · simp only [hlo, if_false]
      by_cases hhi : t < RuneSelf
      · simp only [hhi, if_true, decide_eq_true_eq]
        unfold toLowerRune
        unfold RuneSelf at hhi
        rcases hc with h | h | h <;> split <;> omega
      · simp only [hhi, if_false, decide_eq_true_eq]
        unfold RuneSelf at hhi
        have hlow : toLowerRune t ≠ c := by
          unfold toLowerRune
          split <;> omega
        simp only [hlow, iff_false]
        rw [hfold c hlt]
        rcases hc with h | h | h
        · subst h
          have ha : asciiFold 118 = 86 := by decide
          have hb : asciiFold 86 = 118 := by decide
          have h86 : (86 : Nat) < t := by omega
          simp [maxOrbit, foldWalk, ha, hb, hfold, h86]
          omega
        · subst h
          have ha : asciiFold 46 = 46 := by decide
          simp [maxOrbit, foldWalk, ha]
          omega
        · have ha : asciiFold c = c := by
            unfold asciiFold
            repeat' split
            all_goals omega
          simp [maxOrbit, foldWalk, ha]
          omega

theorem equalFoldRunes_versionRunes (U : Nat → Nat) (v : List Nat)
    (hv : ∀ c ∈ v, versionRune c) (t : List Nat) :
    equalFoldRunes U v t = true ↔ t.map toLowerRune = v := by
  induction v generalizing t with
  | nil =>
    cases t with
    | nil => simp [equalFoldRunes]
    | cons tr t => simp [equalFoldRunes]
  | cons c v ih =>
    cases t with
    | nil => simp [equalFoldRunes]
    | cons tr t =>
      have hc : versionRune c := hv c (List.mem_cons_self c v)
      have hrest : ∀ d ∈ v, versionRune d := fun d hd => hv d (List.mem_cons_of_mem c hd)
      have h1 := foldRune_versionRune U c tr hc
      have h2 := ih hrest t
      simp only [equalFoldRunes, List.map_cons, List.cons.injEq]
      by_cases hf : foldRune U c tr = true
      · simp only [hf, if_true]
        rw [h2]
        constructor
        · intro h
          exact ⟨h1.mp hf, h⟩
        · intro h
          exact h.2
      · have hne : ¬ toLowerRune tr = c := fun h => hf (h1.mpr h)
        simp [hf, hne]

theorem toNat_toLower (c : Char) : (Char.toLower c).toNat = toLowerRune c.toNat := by
  unfold Char.toLower toLowerRune
  by_cases h : c.toNat ≥ 65 ∧ c.toNat ≤ 90
  · have h2 : 65 ≤ c.toNat ∧ c.toNat ≤ 90 := h
    simp only [h, h2, if_true, and_self]
    have hv : (c.toNat + 32).isValidChar := by
      left
      omega
    unfold Char.ofNat
    simp only [hv, dif_pos]
    rfl
  · have h2 : ¬ (65 ≤ c.toNat ∧ c.toNat ≤ 90) := h
    simp only [h, h2, if_false]

theorem toNat_injective : Function.Injective Char.toNat := by
  intro a b h
  apply Char.ext
  apply UInt32.ext
  exact h

theorem runes_toLower (s v : String) :
    (runes s).map toLowerRune = runes v ↔ s.toLower = v := by
  unfold runes String.toLower
  rw [String.map_eq, List.map_map]
  have hfun : toLowerRune ∘ Char.toNat = Char.toNat ∘ Char.toLower := by
    funext c
    simp [Function.comp, toNat_toLower]
  rw [hfun, ← List.map_map]
  constructor
  · intro h
    have := (List.map_injective_iff.mpr toNat_injective) h
    apply String.ext
    exact this
  · intro h
    rw [← h]
    rfl

theorem isVersion1Loop_iff (U : Nat → Nat) (s : String) (vs : List String) :
    isVersion1Loop U s vs = true ↔ ∃ v ∈ vs, EqualFold U v s = true := by
  induction vs with
  | nil => simp [isVersion1Loop]
  | cons v vs ih =>
    simp only [isVersion1Loop, List.mem_cons, exists_eq_or_imp]
    by_cases h : EqualFold U v s = true
    · simp [h]
    · simp [h, ih]

theorem versionsOfV1_runes :
    ∀ v ∈ NewAnalysisUseCases.versionsOfV1, ∀ c ∈ runes v, versionRune c := by
  simp [NewAnalysisUseCases, runes, versionRune]

theorem isVersion1_iff_toLower (U : Nat → Nat) (s : String) :
    NewAnalysisUseCases.isVersion1 U s = true ↔ s.toLower ∈ NewAnalysisUseCases.versionsOfV1 := by
  unfold UseCases.isVersion1
  rw [isVersion1Loop_iff]
  constructor
  · rintro ⟨v, hv, h⟩
    unfold EqualFold at h
    rw [equalFoldRunes_versionRunes U (runes v) (versionsOfV1_runes v hv), runes_toLower] at h
    rw [h]
    exact hv
  · intro h
    refine ⟨s.toLower, h, ?_⟩
    unfold EqualFold
    rw [equalFoldRunes_versionRunes U (runes s.toLower) (versionsOfV1_runes _ h), runes_toLower]

/-- C3: `isVersion1` returns true exactly when the version sent, with its ASCII
letters in lower case, is one of the eleven listed versions; it returns false
for the empty string, for a listed version with a blank before or after it or
without the leading `v`, and for the unlisted version `v1.8.5`. -/
theorem isVersion1_iff_listed (U : Nat → Nat) (s : String) :
    (NewAnalysisUseCases.isVersion1 U s = true ↔
      s.toLower ∈ ["v1.7.0", "v1.8.0", "v1.8.1", "v1.8.2", "v1.8.3", "v1.8.4",
        "v1.9.0", "v1.10.0", "v1.10.1", "v1.10.2", "v1.10.3"]) ∧
    NewAnalysisUseCases.isVersion1 U "V1.8.2" = true ∧
    NewAnalysisUseCases.isVersion1 U "" = false ∧
    NewAnalysisUseCases.isVersion1 U " v1.8.2" = false ∧
    NewAnalysisUseCases.isVersion1 U "v1.8.2 " = false ∧
    NewAnalysisUseCases.isVersion1 U "1.8.2" = false ∧
    NewAnalysisUseCases.isVersion1 U "v1.8.5" = false := by
  have key : ∀ t : String, NewAnalysisUseCases.isVersion1 U t = false ↔
      t.toLower ∉ NewAnalysisUseCases.versionsOfV1 := by
    intro t
    rw [← isVersion1_iff_toLower U t]
    simp
  refine ⟨isVersion1_iff_toLower U s, ?_, ?_, ?_, ?_, ?_, ?_⟩
  · rw [isVersion1_iff_toLower, String.toLower, String.map_eq]
    decide
  all_goals
    rw [key, String.toLower, String.map_eq]
    decide

/-! ## ozzo-validation: theorems -/

theorem validateStruct_unfold {φ ε : Type} (fields : List (φ × Option ε)) :
    ValidateStruct fields =
      if (fields.filterMap (fun fr => fr.2.map (fun err => (fr.1, err)))).isEmpty then none
      else some (fields.filterMap (fun fr => fr.2.map (fun err => (fr.1, err)))) := rfl

theorem validateStruct_eq_none {φ ε : Type} (fields : List (φ × Option ε)) :
    ValidateStruct fields = none ↔ ∀ fr ∈ fields, fr.2 = none := by
  rw [validateStruct_unfold]
  constructor
  · intro h fr hfr
    split at h
    · rename_i hnil
      cases hv : fr.2 with
      | none => rfl
      | some err =>
        have hmem : (fr.1, err) ∈ fields.filterMap (fun fr => fr.2.map (fun err => (fr.1, err))) := by
          rw [List.mem_filterMap]
          exact ⟨fr, hfr, by simp [hv]⟩
        rw [List.isEmpty_iff.mp hnil] at hmem
        exact absurd hmem (List.not_mem_nil _)
    · exact absurd h (by simp)
  · intro h
    have hnil : fields.filterMap (fun fr => fr.2.map (fun err => (fr.1, err))) = [] := by
      rw [List.filterMap_eq_nil_iff]
      intro fr hfr
      simp [h fr hfr]
    simp [hnil]

theorem validateStruct_eq_some {φ ε : Type} (fields : List (φ × Option ε))
    (errs : List (φ × ε)) (h : ValidateStruct fields = some errs) :
    errs = fields.filterMap (fun fr => fr.2.map (fun err => (fr.1, err))) := by
  rw [validateStruct_unfold] at h
  split at h
  · exact absurd h (by simp)
  · exact (Option.some.inj h).symm

theorem lookup_eq_none_of_not_mem {φ ε : Type} [DecidableEq φ] (fields : List (φ × ε)) (f : φ)
    (h : f ∉ fields.map Prod.fst) : fields.lookup f = none := by
  induction fields with
  | nil => rfl
  | cons fr rest ih =>
    obtain ⟨g, o⟩ := fr
    simp only [List.map_cons, List.mem_cons, not_or] at h
    have hne : (f == g) = false := by simpa using h.1
    simp only [List.lookup, hne]
    exact ih h.2

theorem lookup_errors {φ ε : Type} [DecidableEq φ] (fields : List (φ × Option ε)) (f : φ)
    (hnodup : (fields.map Prod.fst).Nodup) :
    (fields.filterMap (fun fr => fr.2.map (fun err => (fr.1, err)))).lookup f =
      (fields.lookup f).join := by
  induction fields with
  | nil => rfl
  | cons fr rest ih =>
    obtain ⟨g, o⟩ := fr
    simp only [List.map_cons, List.nodup_cons] at hnodup
    have ih2 := ih hnodup.2
    by_cases hfg : f = g
    · subst hfg
      cases o with
      | none =>
        simp only [List.filterMap_cons, Option.map_none', List.lookup, beq_self_eq_true,
          Option.join]
        rw [ih2, lookup_eq_none_of_not_mem rest f hnodup.1]
        rfl
      | some err =>
        simp [List.filterMap_cons, List.lookup, Option.join]
    · have hne : (f == g) = false := by simpa using hfg
      cases o with
      | none =>
        simp only [List.filterMap_cons, Option.map_none', List.lookup, hne]
        exact ih2
      | some err =>
        simp only [List.filterMap_cons, Option.map_some', List.lookup, hne]
        exact ih2

theorem string_isEmpty (v : String) : (Value.IsEmpty v = true) ↔ v = "" := by
  show (v.length == 0) = true ↔ v = ""
  rw [beq_iff_eq]
  constructor
  · intro h
    apply String.ext
    exact List.length_eq_zero.mp h
  · intro h
    rw [h]
    rfl

theorem required_string (v : String) :
    Required v = if v = "" then some RuleError.ErrRequired else none := by
  unfold Required
  by_cases h : v = ""
  · subst h
    have : Value.IsEmpty "" = true := rfl
    simp [this]
  · have : Value.IsEmpty v = false := by
      cases hv : Value.IsEmpty v with
      | false => rfl
      | true => exact absurd ((string_isEmpty v).mp hv) h
    simp [h, this, Value.isNil]

theorem in_string (elements : List String) (v : String) :
    In elements v =
      if v = "" then none else if v ∈ elements then none else some RuleError.ErrInInvalid := by
  unfold In
  by_cases h : v = ""
  · subst h
    have : Value.IsEmpty "" = true := rfl
    simp [this]
  · have : Value.IsEmpty v = false := by
      cases hv : Value.IsEmpty v with
      | false => rfl
      | true => exact absurd ((string_isEmpty v).mp hv) h
    simp [h, this, Value.isNil]

theorem validate_required_in (elements : List String) (v : String) :
    Validate v [Required, In elements] =
      if v = "" then some RuleError.ErrRequired
      else if v ∈ elements then none else some RuleError.ErrInInvalid := by
  simp only [Validate, required_string, in_string]
  by_cases h : v = ""
  · simp [h]
  · by_cases hm : v ∈ elements <;> simp [h, hm]

theorem validate_required_in_eq_none (elements : List String) (v : String) :
    Validate v [Required, In elements] = none ↔ inEnum elements v := by
  rw [validate_required_in]
  unfold inEnum
  by_cases h : v = ""
  · simp [h]
  · by_cases hm : v ∈ elements <;> simp [h, hm]

theorem validate_required (v : String) :
    Validate v [Required] = if v = "" then some RuleError.ErrRequired else none := by
  simp only [Validate, required_string]
  by_cases h : v = "" <;> simp [h]

theorem setupValidationVulnerabilities_eq_none (K : Registry) (vul : Vulnerability) :
    setupValidationVulnerabilities K vul = none ↔ validVulnerability K vul := by
  unfold setupValidationVulnerabilities validVulnerability
  rw [validateStruct_eq_none]
  simp only [Field, List.mem_cons, List.mem_singleton, forall_eq_or_imp, forall_eq,
    List.not_mem_nil, false_implies, implies_true, and_true,
    validate_required_in_eq_none, validate_required]
  by_cases h : vul.VulnHash = "" <;> simp [h]

theorem validateVulnerabilitiesLoop_eq_none (K : Registry) (l : List AnalysisVulnerabilities) :
    validateVulnerabilitiesLoop K l = none ↔ ∀ av ∈ l, validVulnerability K av.Vulnerability := by
  induction l with
  | nil => simp [validateVulnerabilitiesLoop]
  | cons av rest ih =>
    simp only [validateVulnerabilitiesLoop, List.mem_cons, forall_eq_or_imp]
    cases h : setupValidationVulnerabilities K av.Vulnerability with
    | none =>
      have hv := (setupValidationVulnerabilities_eq_none K av.Vulnerability).mp h
      simp [hv, ih]
    | some err =>
      have hv : ¬ validVulnerability K av.Vulnerability := by
        intro hv
        rw [(setupValidationVulnerabilities_eq_none K av.Vulnerability).mpr hv] at h
        exact absurd h (by simp)
      simp [hv]

theorem validateVulnerabilitiesLoop_first (K : Registry) (l : List AnalysisVulnerabilities)
    (i : Nat) (av : AnalysisVulnerabilities) (hi : l[i]? = some av)
    (hpre : ∀ j p, j < i → l[j]? = some p → validVulnerability K p.Vulnerability)
    (hav : ¬ validVulnerability K av.Vulnerability) :
    validateVulnerabilitiesLoop K l = setupValidationVulnerabilities K av.Vulnerability := by
  induction l generalizing i with
  | nil => simp at hi
  | cons x xs ih =>
    cases i with
    | zero =>
      simp only [List.getElem?_cons_zero, Option.some.injEq] at hi
      subst hi
      simp only [validateVulnerabilitiesLoop]
      cases h : setupValidationVulnerabilities K x.Vulnerability with
      | none => exact absurd ((setupValidationVulnerabilities_eq_none K x.Vulnerability).mp h) hav
      | some err => rfl
    | succ n =>
      have hx : validVulnerability K x.Vulnerability :=
        hpre 0 x (Nat.succ_pos n) (by simp)
      have hp := (setupValidationVulnerabilities_eq_none K x.Vulnerability).mpr hx
      simp only [validateVulnerabilitiesLoop, hp]
      simp only [List.getElem?_cons_succ] at hi
      apply ih n hi
      intro j p hj hjp
      exact hpre (j + 1) p (Nat.succ_lt_succ hj) (by simpa using hjp)

/-- The entries of the `validation.Errors` that `setupValidationVulnerabilities`
returns, field by field. -/
theorem setupValidationVulnerabilities_lookup (K : Registry) (vul : Vulnerability)
    (errs : VulnerabilityErrors) (h : setupValidationVulnerabilities K vul = some errs) :
    errs.lookup VulnerabilityField.SecurityTool =
        Validate vul.SecurityTool [Required, In (sliceTools K)] ∧
    errs.lookup VulnerabilityField.VulnHash = Validate vul.VulnHash [Required] ∧
    errs.lookup VulnerabilityField.Confidence =
        Validate vul.Confidence [Required, In (sliceConfidence K)] ∧
    errs.lookup VulnerabilityField.Language =
        Validate vul.Language [Required, In (sliceLanguages K)] ∧
    errs.lookup VulnerabilityField.Severity =
        Validate vul.Severity [Required, In (sliceSeverities K)] ∧
    errs.lookup VulnerabilityField.Type_ =
        Validate vul.Type_ [Required, In (sliceVulnerabilitiesType K)] := by
  unfold setupValidationVulnerabilities at h
  have he := validateStruct_eq_some _ _ h
  rw [he]
  refine ⟨?_, ?_, ?_, ?_, ?_, ?_⟩
  all_goals
    rw [lookup_errors _ _ (by simp [Field])]
    rfl

theorem validate_required_in_of_not_mem (elements : List String) (v : String)
    (h : v ∉ elements) :
    Validate v [Required, In elements] =
      some (if v = "" then RuleError.ErrRequired else RuleError.ErrInInvalid) := by
  rw [validate_required_in]
  by_cases hv : v = "" <;> simp [hv, h]

/-! ## Validator: theorems -/

theorem isLowerHex_hexDigit (n : Nat) (h : n < 16) : isLowerHex (hexDigit n) = true := by
  interval_cases n <;> decide

theorem isLowerHex_digit (u : UUID) (i : Nat) : isLowerHex (hexDigit (u.digit i)) = true :=
  isLowerHex_hexDigit (u.digit i) (Nat.mod_lt _ (by decide))

theorem uuid_toString_length (u : UUID) : u.toString.length = 36 := by
  simp [UUID.toString, UUID.hex, String.length]

/-- The text of every `uuid.UUID` matches the regular expression of
`govalidator.IsUUID`. -/
theorem uuid_toString_isUUID (u : UUID) : IsUUID u.toString = true := by
  have hlen : u.toString.toList.length = 36 := uuid_toString_length u
  simp only [IsUUID, hlen, beq_self_eq_true, Bool.true_and, List.all_eq_true, List.mem_range]
  intro i hi
  interval_cases i <;>
    simp [UUID.toString, UUID.hex, List.range, List.range.loop, isLowerHex_digit]

theorem uuid_not_empty (u : UUID) : Value.IsEmpty u = false := by
  show (u.toString.length == 0) = false
  rw [uuid_toString_length]
  rfl

/-- The rules of the field `ID` never fail: the value is a `uuid.UUID`. -/
theorem validate_id (u : UUID) :
    Validate u [analysisRule Required, analysisRule is.UUID] = none := by
  have h1 : Required u = none := by
    simp [Required, Value.isNil, uuid_not_empty]
  have h2 : is.UUID u = none := by
    have h := uuid_toString_isUUID u
    simp [is.UUID, Value.isNil, uuid_not_empty, StringValue.EnsureString, h]
  simp [Validate, analysisRule, h1, h2]

theorem validate_status (elements : List String) (v : String) :
    Validate v [analysisRule Required, analysisRule (In elements)] =
      if v = "" then some (AnalysisFieldError.rule RuleError.ErrRequired)
      else if v ∈ elements then none
      else some (AnalysisFieldError.rule RuleError.ErrInInvalid) := by
  simp only [Validate, analysisRule, required_string, in_string]
  by_cases h : v = ""
  · simp [h]
  · by_cases hm : v ∈ elements <;> simp [h, hm]

theorem validate_time (t : Time) :
    Validate t [analysisRule Required, analysisRule NilOrNotEmpty] =
      if t.IsZero = true then some (AnalysisFieldError.rule RuleError.ErrRequired) else none := by
  simp only [Validate, analysisRule, Required, NilOrNotEmpty, Value.isNil, Value.IsEmpty]
  by_cases h : t.IsZero = true <;> simp [h]

theorem validate_vulnerabilities (K : Registry) (l : List AnalysisVulnerabilities) :
    Validate l [By (validateVulnerabilities K l)] =
      (validateVulnerabilitiesLoop K l).map AnalysisFieldError.Errors := by
  simp only [Validate, By, validateVulnerabilities]
  cases validateVulnerabilitiesLoop K l <;> rfl

/-- The entries of the `validation.Errors` that `validateAnalysisToCLIv2`
returns, field by field. -/
theorem validateAnalysisStruct_lookup (K : Registry) (a : Analysis) (errs : AnalysisErrors)
    (h : validateAnalysisStruct K a = some errs) :
    errs.lookup AnalysisField.ID = none ∧
    errs.lookup AnalysisField.Status =
        (if a.Status = "" then some (AnalysisFieldError.rule RuleError.ErrRequired)
         else if a.Status ∈ sliceAnalysisStatus K then none
         else some (AnalysisFieldError.rule RuleError.ErrInInvalid)) ∧
    errs.lookup AnalysisField.CreatedAt =
        (if a.CreatedAt.IsZero = true then some (AnalysisFieldError.rule RuleError.ErrRequired)
         else none) ∧
    errs.lookup AnalysisField.FinishedAt =
        (if a.FinishedAt.IsZero = true then some (AnalysisFieldError.rule RuleError.ErrRequired)
         else none) ∧
    errs.lookup AnalysisField.AnalysisVulnerabilities =
        (validateVulnerabilitiesLoop K a.AnalysisVulnerabilities).map
          AnalysisFieldError.Errors := by
  unfold validateAnalysisStruct at h
  have he := validateStruct_eq_some _ _ h
  rw [he]
  refine ⟨?_, ?_, ?_, ?_, ?_⟩
  all_goals
    rw [lookup_errors _ _ (by simp [Field])]
    simp only [Field, List.lookup, validate_id, validate_status, validate_time,
      validate_vulnerabilities]
    rfl

theorem validateAnalysisStruct_eq_none (K : Registry) (a : Analysis) :
    validateAnalysisStruct K a = none ↔
      IsUUID a.ID.toString = true ∧ inEnum (sliceAnalysisStatus K) a.Status ∧
      a.CreatedAt.IsZero = false ∧ a.FinishedAt.IsZero = false ∧
      ∀ av ∈ a.AnalysisVulnerabilities, validVulnerability K av.Vulnerability := by
  unfold validateAnalysisStruct
  rw [validateStruct_eq_none]
  simp only [Field, List.mem_cons, List.mem_singleton, forall_eq_or_imp, forall_eq,
    List.not_mem_nil, false_implies, implies_true, and_true,
    validate_id, validate_status, validate_time, validate_vulnerabilities,
    Option.map_eq_none', validateVulnerabilitiesLoop_eq_none, inEnum, uuid_toString_isUUID]
  by_cases h3 : a.Status = "" <;> by_cases h4 : a.Status ∈ sliceAnalysisStatus K <;>
    by_cases h5 : a.CreatedAt.IsZero = true <;> by_cases h6 : a.FinishedAt.IsZero = true <;>
    simp [h3, h4, h5, h6]

theorem validateAnalysisData_nil_analysis (K : Registry) (d : AnalysisData)
    (h : d.Analysis = none) :
    validateAnalysisData K (some d) =
      Outcome.returns (some (Error.analysisData
        [(AnalysisDataField.Analysis, RuleError.ErrRequired)])) := by
  simp only [validateAnalysisData, h]
  rfl

theorem validateAnalysisData_some_analysis (K : Registry) (d : AnalysisData) (a : Analysis)
    (h : d.Analysis = some a) :
    validateAnalysisData K (some d) =
      Outcome.returns ((validateAnalysisStruct K a).map Error.analysis) := by
  simp only [validateAnalysisData, h]
  rfl

theorem decode_of_parsed {V1 : Type} (E : Env V1) (au : UseCases) (r : Request) (body : Body)
    (d : Option AnalysisData) (hb : r.Body = some body)
    (hp : au.parseBodyToAnalysis E r body = Except.ok d) (err : Option Error)
    (hv : validateAnalysisData E.registry d = Outcome.returns err) :
    au.DecodeAnalysisDataFromIoRead E r = Outcome.returns (d, err) := by
  simp only [UseCases.DecodeAnalysisDataFromIoRead, hb, hp, hv]

/-- The cases of a call of `DecodeAnalysisDataFromIoRead` that returns. -/
theorem decode_returns_cases {V1 : Type} (E : Env V1) (au : UseCases) (r : Request)
    (d : Option AnalysisData) (err : Option Error)
    (h : au.DecodeAnalysisDataFromIoRead E r = Outcome.returns (d, err)) :
    (r.Body = none ∧ d = none ∧ err = some Error.ErrorBodyEmpty) ∨
    (∃ body e, r.Body = some body ∧ au.parseBodyToAnalysis E r body = Except.error e ∧
      d = none ∧ err = some e) ∨
    (∃ body, r.Body = some body ∧ au.parseBodyToAnalysis E r body = Except.ok d ∧
      validateAnalysisData E.registry d = Outcome.returns err) := by
  unfold UseCases.DecodeAnalysisDataFromIoRead at h
  cases hb : r.Body with
  | none =>
    simp only [hb, Outcome.returns.injEq, Prod.mk.injEq] at h
    exact Or.inl ⟨rfl, h.1.symm, h.2.symm⟩
  | some body =>
    simp only [hb] at h
    cases hp : au.parseBodyToAnalysis E r body with
    | error e =>
      simp only [hp, Outcome.returns.injEq, Prod.mk.injEq] at h
      exact Or.inr (Or.inl ⟨body, e, rfl, hp, h.1.symm, h.2.symm⟩)
    | ok parsed =>
      simp only [hp] at h
      cases hv : validateAnalysisData E.registry parsed with
      | panics =>
        simp only [hv] at h
        exact absurd h (by simp)
      | returns verr =>
        simp only [hv, Outcome.returns.injEq, Prod.mk.injEq] at h
        obtain ⟨h1, h2⟩ := h
        subst h1
        subst h2
        exact Or.inr (Or.inr ⟨body, rfl, hp, hv⟩)

/-! ## Claims -/

/-- C1: when `DecodeAnalysisDataFromIoRead` returns a nil error, the returned
`AnalysisData` is non-nil, its `Analysis` is non-nil, the status is one of the
constants of `sliceAnalysisStatus`, `CreatedAt` and `FinishedAt` are not zero,
and every vulnerability has a non-empty `VulnHash` and a tool, confidence,
language, severity and type that are members of their slices. -/
theorem decode_nil_error_report_valid {V1 : Type} (E : Env V1) (au : UseCases) (r : Request)
    (analysisData : Option AnalysisData)
    (h : au.DecodeAnalysisDataFromIoRead E r = Outcome.returns (analysisData, none)) :
    ∃ data analysis, analysisData = some data ∧ data.Analysis = some analysis ∧
      analysis.Status ∈ sliceAnalysisStatus E.registry ∧
      analysis.CreatedAt.IsZero = false ∧ analysis.FinishedAt.IsZero = false ∧
      ∀ av ∈ analysis.AnalysisVulnerabilities,
        av.Vulnerability.VulnHash ≠ "" ∧
        av.Vulnerability.SecurityTool ∈ sliceTools E.registry ∧
        av.Vulnerability.Confidence ∈ sliceConfidence E.registry ∧
        av.Vulnerability.Language ∈ sliceLanguages E.registry ∧
        av.Vulnerability.Severity ∈ sliceSeverities E.registry ∧
        av.Vulnerability.Type_ ∈ sliceVulnerabilitiesType E.registry := by
  rcases decode_returns_cases E au r analysisData none h with h1 | h2 | h3
  · exact absurd h1.2.2 (by simp)
  · obtain ⟨body, e, _, _, _, he⟩ := h2
    exact absurd he (by simp)
  · obtain ⟨body, _, _, hv⟩ := h3
    cases analysisData with
    | none => exact absurd hv (by simp [validateAnalysisData])
    | some data =>
      cases ha : data.Analysis with
      | none =>
        rw [validateAnalysisData_nil_analysis E.registry data ha] at hv
        exact absurd hv (by simp)
      | some analysis =>
        rw [validateAnalysisData_some_analysis E.registry data analysis ha] at hv
        have hnone : validateAnalysisStruct E.registry analysis = none := by
          cases hs : validateAnalysisStruct E.registry analysis with
          | none => rfl
          | some errs =>
            rw [hs] at hv
            exact absurd hv (by simp)
        obtain ⟨_, hst, hc, hf, hvul⟩ :=
          (validateAnalysisStruct_eq_none E.registry analysis).mp hnone
        refine ⟨data, analysis, rfl, ha, hst.2, hc, hf, ?_⟩
        intro av hav
        obtain ⟨ht, hh, hco, hl, hse, hty⟩ := hvul av hav
        exact ⟨hh, ht.2, hco.2, hl.2, hse.2, hty.2⟩

/-- Witness of C1: the scenario of section 8 of the spec is decoded with a nil
error. -/
theorem decode_nil_error_report_valid_witness :
    NewAnalysisUseCases.DecodeAnalysisDataFromIoRead (yieldingEnv (some specData)) plainRequest =
      Outcome.returns (some specData, none) ∧
    ∃ data analysis, some specData = some data ∧ data.Analysis = some analysis ∧
      analysis.Status ∈ sliceAnalysisStatus specRegistry ∧
      analysis.CreatedAt.IsZero = false ∧ analysis.FinishedAt.IsZero = false ∧
      ∀ av ∈ analysis.AnalysisVulnerabilities,
        av.Vulnerability.VulnHash ≠ "" ∧
        av.Vulnerability.SecurityTool ∈ sliceTools specRegistry ∧
        av.Vulnerability.Confidence ∈ sliceConfidence specRegistry ∧
        av.Vulnerability.Language ∈ sliceLanguages specRegistry ∧
        av.Vulnerability.Severity ∈ sliceSeverities specRegistry ∧
        av.Vulnerability.Type_ ∈ sliceVulnerabilitiesType specRegistry :=
  ⟨by decide, decode_nil_error_report_valid (yieldingEnv (some specData)) NewAnalysisUseCases
    plainRequest (some specData) (by decide)⟩

/-- C2: when the finding at position `i` of a report with a non-nil `Analysis`
has a tool, language, severity, confidence or type outside its slice,
`validateAnalysisData` returns a validation error; and when no earlier finding
is invalid, the error has under `AnalysisVulnerabilities` the errors of that
finding, with an entry for each such field: `ErrRequired` when the field is
empty and `ErrInInvalid` otherwise. -/
theorem unknown_enum_value_rejected (K : Registry) (d : AnalysisData) (a : Analysis)
    (i : Nat) (av : AnalysisVulnerabilities)
    (ha : d.Analysis = some a) (hi : a.AnalysisVulnerabilities[i]? = some av)
    (hbad : av.Vulnerability.SecurityTool ∉ sliceTools K ∨
      av.Vulnerability.Language ∉ sliceLanguages K ∨
      av.Vulnerability.Severity ∉ sliceSeverities K ∨
      av.Vulnerability.Confidence ∉ sliceConfidence K ∨
      av.Vulnerability.Type_ ∉ sliceVulnerabilitiesType K) :
    (∃ errs, validateAnalysisData K (some d) = Outcome.returns (some (Error.analysis errs))) ∧
    ((∀ j p, j < i → a.AnalysisVulnerabilities[j]? = some p →
        validVulnerability K p.Vulnerability) →
      ∃ errs verrs,
        validateAnalysisData K (some d) = Outcome.returns (some (Error.analysis errs)) ∧
        errs.lookup AnalysisField.AnalysisVulnerabilities =
          some (AnalysisFieldError.Errors verrs) ∧
        (av.Vulnerability.SecurityTool ∉ sliceTools K →
          verrs.lookup VulnerabilityField.SecurityTool =
            some (if av.Vulnerability.SecurityTool = "" then RuleError.ErrRequired
              else RuleError.ErrInInvalid)) ∧
        (av.Vulnerability.Language ∉ sliceLanguages K →
          verrs.lookup VulnerabilityField.Language =
            some (if av.Vulnerability.Language = "" then RuleError.ErrRequired
              else RuleError.ErrInInvalid)) ∧
        (av.Vulnerability.Severity ∉ sliceSeverities K →
          verrs.lookup VulnerabilityField.Severity =
            some (if av.Vulnerability.Severity = "" then RuleError.ErrRequired
              else RuleError.ErrInInvalid)) ∧
        (av.Vulnerability.Confidence ∉ sliceConfidence K →
          verrs.lookup VulnerabilityField.Confidence =
            some (if av.Vulnerability.Confidence = "" then RuleError.ErrRequired
              else RuleError.ErrInInvalid)) ∧
        (av.Vulnerability.Type_ ∉ sliceVulnerabilitiesType K →
          verrs.lookup VulnerabilityField.Type_ =
            some (if av.Vulnerability.Type_ = "" then RuleError.ErrRequired
              else RuleError.ErrInInvalid))) := by
  have hinv : ¬ validVulnerability K av.Vulnerability := by
    intro hv
    obtain ⟨ht, _, hco, hl, hse, hty⟩ := hv
    rcases hbad with h | h | h | h | h
    · exact h ht.2
    · exact h hl.2
    · exact h hse.2
    · exact h hco.2
    · exact h hty.2
  have hmem : av ∈ a.AnalysisVulnerabilities := List.getElem?_mem hi
  have hsome : ∃ errs, validateAnalysisStruct K a = some errs := by
    cases hs : validateAnalysisStruct K a with
    | some errs => exact ⟨errs, rfl⟩
    | none =>
      have := ((validateAnalysisStruct_eq_none K a).mp hs).2.2.2.2 av hmem
      exact absurd this hinv
  obtain ⟨errs, herrs⟩ := hsome
  have hret : validateAnalysisData K (some d) = Outcome.returns (some (Error.analysis errs)) := by
    rw [validateAnalysisData_some_analysis K d a ha, herrs]
    rfl
  refine ⟨⟨errs, hret⟩, ?_⟩
  intro hpre
  have hloop := validateVulnerabilitiesLoop_first K a.AnalysisVulnerabilities i av hi hpre hinv
  cases hset : setupValidationVulnerabilities K av.Vulnerability with
  | none => exact absurd ((setupValidationVulnerabilities_eq_none K av.Vulnerability).mp hset) hinv
  | some verrs =>
    have hlk := (validateAnalysisStruct_lookup K a errs herrs).2.2.2.2
    rw [hloop, hset] at hlk
    obtain ⟨h1, _, h3, h4, h5, h6⟩ :=
      setupValidationVulnerabilities_lookup K av.Vulnerability verrs hset
    refine ⟨errs, verrs, hret, hlk, ?_, ?_, ?_, ?_, ?_⟩
    · intro h
      rw [h1, validate_required_in_of_not_mem _ _ h]
    · intro h
      rw [h4, validate_required_in_of_not_mem _ _ h]
    · intro h
      rw [h5, validate_required_in_of_not_mem _ _ h]
    · intro h
      rw [h3, validate_required_in_of_not_mem _ _ h]
    · intro h
      rw [h6, validate_required_in_of_not_mem _ _ h]

/-- Witness of C2: the second finding of `unknownToolData` has an unknown tool
and is the first invalid finding. -/
theorem unknown_enum_value_rejected_witness :
    ∃ errs verrs,
      validateAnalysisData specRegistry (some unknownToolData) =
        Outcome.returns (some (Error.analysis errs)) ∧
      errs.lookup AnalysisField.AnalysisVulnerabilities =
        some (AnalysisFieldError.Errors verrs) ∧
      verrs.lookup VulnerabilityField.SecurityTool = some RuleError.ErrInInvalid := by
  have h := unknown_enum_value_rejected specRegistry unknownToolData
    { specAnalysis with AnalysisVulnerabilities := [specFinding, unknownToolFinding] }
    1 unknownToolFinding rfl rfl (Or.inl (by decide))
  have hpre : ∀ j p, j < 1 →
      ({ specAnalysis with AnalysisVulnerabilities := [specFinding, unknownToolFinding] } :
        Analysis).AnalysisVulnerabilities[j]? = some p →
      validVulnerability specRegistry p.Vulnerability := by
    intro j p hj hp
    have hj0 : j = 0 := by omega
    subst hj0
    simp only [List.getElem?_cons_zero, Option.some.injEq] at hp
    subst hp
    simp only [validVulnerability, inEnum]
    decide
  obtain ⟨errs, verrs, h1, h2, h3, _⟩ := h.2 hpre
  exact ⟨errs, verrs, h1, h2, by simpa using h3 (by decide)⟩

/-- C4, the code at the failing input: for the decoded body
`{"analysis": null}` the decoder returns a non-nil error together with the
non-nil parsed report; on every validation failure the report that
`parseBodyToAnalysis` produced is returned unchanged with the error, while the
two other error paths, the nil body and the failure of the parser, return a nil
report. -/
theorem decode_validation_failure_returns_report :
    NewAnalysisUseCases.DecodeAnalysisDataFromIoRead (yieldingEnv (some nilAnalysisData))
        plainRequest =
      Outcome.returns (some nilAnalysisData,
        some (Error.analysisData [(AnalysisDataField.Analysis, RuleError.ErrRequired)])) ∧
    (∀ (V1 : Type) (E : Env V1) (au : UseCases) (r : Request) (body : Body)
        (d : Option AnalysisData) (err : Error),
      r.Body = some body → au.parseBodyToAnalysis E r body = Except.ok d →
      validateAnalysisData E.registry d = Outcome.returns (some err) →
      d ≠ none ∧ au.DecodeAnalysisDataFromIoRead E r = Outcome.returns (d, some err)) ∧
    (∀ (V1 : Type) (E : Env V1) (au : UseCases) (r : Request),
      r.Body = none →
      au.DecodeAnalysisDataFromIoRead E r = Outcome.returns (none, some Error.ErrorBodyEmpty)) ∧
    (∀ (V1 : Type) (E : Env V1) (au : UseCases) (r : Request) (body : Body) (err : Error),
      r.Body = some body → au.parseBodyToAnalysis E r body = Except.error err →
      au.DecodeAnalysisDataFromIoRead E r = Outcome.returns (none, some err)) := by
  refine ⟨by decide, ?_, ?_, ?_⟩
  · intro V1 E au r body d err hb hp hv
    refine ⟨?_, decode_of_parsed E au r body d hb hp (some err) hv⟩
    intro hd
    subst hd
    exact absurd hv (by simp [validateAnalysisData])
  · intro V1 E au r hb
    simp only [UseCases.DecodeAnalysisDataFromIoRead, hb]
  · intro V1 E au r body err hb hp
    simp only [UseCases.DecodeAnalysisDataFromIoRead, hb, hp]

theorem validateAnalysisToCLIv2_some (K : Registry) (a : Analysis) :
    validateAnalysisToCLIv2 K (some a) =
      Outcome.returns ((validateAnalysisStruct K a).map Error.analysis) := rfl

/-- C5, the code at the failing input: the report of the scenario of
section 8 without its `id`, which leaves `uuid.Nil` in the field, is accepted
by `validateAnalysisToCLIv2` and by the decoder; the text of `uuid.Nil` that
the rules inspect is not empty and is a valid UUID; and for every analysis the
rules `Required` and `is.UUID` pass on `ID`, so no error of
`validateAnalysisToCLIv2` has an entry for `ID`. -/
theorem missing_id_accepted :
    validateAnalysisToCLIv2 specRegistry (some missingIdAnalysis) = Outcome.returns none ∧
    NewAnalysisUseCases.DecodeAnalysisDataFromIoRead
        (yieldingEnv (some { Analysis := some missingIdAnalysis, RepositoryName := "horusec" }))
        plainRequest =
      Outcome.returns
        (some { Analysis := some missingIdAnalysis, RepositoryName := "horusec" }, none) ∧
    missingIdAnalysis.ID = UUID.Nil ∧
    UUID.Nil.toString = "00000000-0000-0000-0000-000000000000" ∧
    (∀ u : UUID, Required u = none ∧ is.UUID u = none) ∧
    (∀ (K : Registry) (a : Analysis) (errs : AnalysisErrors),
      validateAnalysisToCLIv2 K (some a) = Outcome.returns (some (Error.analysis errs)) →
      errs.lookup AnalysisField.ID = none) := by
  refine ⟨by decide, by decide, rfl, by decide, ?_, ?_⟩
  · intro u
    have h := uuid_toString_isUUID u
    exact ⟨by simp [Required, Value.isNil, uuid_not_empty],
      by simp [is.UUID, Value.isNil, uuid_not_empty, StringValue.EnsureString, h]⟩
  · intro K a errs h
    rw [validateAnalysisToCLIv2_some] at h
    cases hs : validateAnalysisStruct K a with
    | none =>
      rw [hs] at h
      exact absurd h (by simp)
    | some errs2 =>
      rw [hs] at h
      simp only [Option.map_some', Outcome.returns.injEq, Option.some.injEq,
        Error.analysis.injEq] at h
      rw [← h]
      exact (validateAnalysisStruct_lookup K a errs2 hs).1

theorem validateAnalysisStruct_isSome_of_not_valid (K : Registry) (a : Analysis)
    (h : ¬ (IsUUID a.ID.toString = true ∧ inEnum (sliceAnalysisStatus K) a.Status ∧
      a.CreatedAt.IsZero = false ∧ a.FinishedAt.IsZero = false ∧
      ∀ av ∈ a.AnalysisVulnerabilities, validVulnerability K av.Vulnerability)) :
    ∃ errs, validateAnalysisStruct K a = some errs := by
  cases hs : validateAnalysisStruct K a with
  | some errs => exact ⟨errs, rfl⟩
  | none => exact absurd ((validateAnalysisStruct_eq_none K a).mp hs) h

/-- C6: for a report with a non-nil `Analysis`, the error of
`validateAnalysisData` has an entry for `Status` when the status is empty
(`ErrRequired`) or is not a constant of `sliceAnalysisStatus` (`ErrInInvalid`),
an entry for `CreatedAt` when `CreatedAt` is zero, and an entry for
`FinishedAt` when `FinishedAt` is zero. -/
theorem missing_top_level_field_named (K : Registry) (d : AnalysisData) (a : Analysis)
    (ha : d.Analysis = some a) :
    ((a.Status = "" ∨ a.Status ∉ sliceAnalysisStatus K) →
      ∃ errs, validateAnalysisData K (some d) = Outcome.returns (some (Error.analysis errs)) ∧
        errs.lookup AnalysisField.Status =
          some (AnalysisFieldError.rule
            (if a.Status = "" then RuleError.ErrRequired else RuleError.ErrInInvalid))) ∧
    (a.CreatedAt.IsZero = true →
      ∃ errs, validateAnalysisData K (some d) = Outcome.returns (some (Error.analysis errs)) ∧
        errs.lookup AnalysisField.CreatedAt =
          some (AnalysisFieldError.rule RuleError.ErrRequired)) ∧
    (a.FinishedAt.IsZero = true →
      ∃ errs, validateAnalysisData K (some d) = Outcome.returns (some (Error.analysis errs)) ∧
        errs.lookup AnalysisField.FinishedAt =
          some (AnalysisFieldError.rule RuleError.ErrRequired)) := by
  have hret : ∀ errs, validateAnalysisStruct K a = some errs →
      validateAnalysisData K (some d) = Outcome.returns (some (Error.analysis errs)) := by
    intro errs herrs
    rw [validateAnalysisData_some_analysis K d a ha, herrs]
    rfl
  refine ⟨?_, ?_, ?_⟩
  · intro h
    obtain ⟨errs, herrs⟩ := validateAnalysisStruct_isSome_of_not_valid K a (by
      rintro ⟨_, hst, _⟩
      rcases h with h | h
      · exact hst.1 h
      · exact h hst.2)
    refine ⟨errs, hret errs herrs, ?_⟩
    rw [(validateAnalysisStruct_lookup K a errs herrs).2.1]
    by_cases hs : a.Status = ""
    · simp [hs]
    · rcases h with h | h
      · exact absurd h hs
      · simp [hs, h]
  · intro h
    obtain ⟨errs, herrs⟩ := validateAnalysisStruct_isSome_of_not_valid K a (by
      rintro ⟨_, _, hc, _⟩
      rw [h] at hc
      exact absurd hc (by simp))
    refine ⟨errs, hret errs herrs, ?_⟩
    rw [(validateAnalysisStruct_lookup K a errs herrs).2.2.1]
    simp [h]
  · intro h
    obtain ⟨errs, herrs⟩ := validateAnalysisStruct_isSome_of_not_valid K a (by
      rintro ⟨_, _, _, hf, _⟩
      rw [h] at hf
      exact absurd hf (by simp))
    refine ⟨errs, hret errs herrs, ?_⟩
    rw [(validateAnalysisStruct_lookup K a errs herrs).2.2.2.1]
    simp [h]

/-- Witness of C6: a report whose analysis has every field at its zero value
has entries for `Status`, `CreatedAt` and `FinishedAt`. -/
theorem missing_top_level_field_named_witness :
    (∃ errs, validateAnalysisData specRegistry
          (some { Analysis := some blankAnalysis, RepositoryName := "" }) =
        Outcome.returns (some (Error.analysis errs)) ∧
      errs.lookup AnalysisField.Status = some (AnalysisFieldError.rule RuleError.ErrRequired)) ∧
    (∃ errs, validateAnalysisData specRegistry
          (some { Analysis := some blankAnalysis, RepositoryName := "" }) =
        Outcome.returns (some (Error.analysis errs)) ∧
      errs.lookup AnalysisField.CreatedAt =
        some (AnalysisFieldError.rule RuleError.ErrRequired)) ∧
    (∃ errs, validateAnalysisData specRegistry
          (some { Analysis := some blankAnalysis, RepositoryName := "" }) =
        Outcome.returns (some (Error.analysis errs)) ∧
      errs.lookup AnalysisField.FinishedAt =
        some (AnalysisFieldError.rule RuleError.ErrRequired)) := by
  have h := missing_top_level_field_named specRegistry
    { Analysis := some blankAnalysis, RepositoryName := "" } blankAnalysis rfl
  exact ⟨h.1 (Or.inl rfl), h.2.1 (by decide), h.2.2 (by decide)⟩

theorem setupValidationVulnerabilities_empty_hash (K : Registry) (vul : Vulnerability)
    (ht : inEnum (sliceTools K) vul.SecurityTool) (hc : inEnum (sliceConfidence K) vul.Confidence)
    (hl : inEnum (sliceLanguages K) vul.Language) (hs : inEnum (sliceSeverities K) vul.Severity)
    (hy : inEnum (sliceVulnerabilitiesType K) vul.Type_) (hh : vul.VulnHash = "") :
    setupValidationVulnerabilities K vul =
      some [(VulnerabilityField.VulnHash, RuleError.ErrRequired)] := by
  unfold setupValidationVulnerabilities
  simp only [Field, (validate_required_in_eq_none _ _).mpr ht,
    (validate_required_in_eq_none _ _).mpr hc, (validate_required_in_eq_none _ _).mpr hl,
    (validate_required_in_eq_none _ _).mpr hs, (validate_required_in_eq_none _ _).mpr hy,
    validate_required, hh]
  rfl

theorem validateVulnerabilitiesLoop_empty_hash (K : Registry) (l : List AnalysisVulnerabilities)
    (hother : ∀ av ∈ l, inEnum (sliceTools K) av.Vulnerability.SecurityTool ∧
      inEnum (sliceConfidence K) av.Vulnerability.Confidence ∧
      inEnum (sliceLanguages K) av.Vulnerability.Language ∧
      inEnum (sliceSeverities K) av.Vulnerability.Severity ∧
      inEnum (sliceVulnerabilitiesType K) av.Vulnerability.Type_)
    (hex : ∃ av ∈ l, av.Vulnerability.VulnHash = "") :
    validateVulnerabilitiesLoop K l =
      some [(VulnerabilityField.VulnHash, RuleError.ErrRequired)] := by
  induction l with
  | nil =>
    obtain ⟨av, hav, _⟩ := hex
    exact absurd hav (List.not_mem_nil av)
  | cons x xs ih =>
    obtain ⟨ht, hc, hl, hs, hy⟩ := hother x (List.mem_cons_self x xs)
    by_cases hh : x.Vulnerability.VulnHash = ""
    · simp only [validateVulnerabilitiesLoop,
        setupValidationVulnerabilities_empty_hash K x.Vulnerability ht hc hl hs hy hh]
    · have hx : validVulnerability K x.Vulnerability := ⟨ht, hh, hc, hl, hs, hy⟩
      simp only [validateVulnerabilitiesLoop,
        (setupValidationVulnerabilities_eq_none K x.Vulnerability).mpr hx]
      apply ih (fun av hav => hother av (List.mem_cons_of_mem x hav))
      obtain ⟨av, hav, he⟩ := hex
      rcases List.mem_cons.mp hav with h | h
      · rw [h] at he
        exact absurd he hh
      · exact ⟨av, h, he⟩

/-- C7: a report that is otherwise valid and has a finding with an empty
`VulnHash` fails validation with exactly one entry, under
`AnalysisVulnerabilities`, whose errors are `ErrRequired` for `VulnHash`; and
in a report that validation accepts no finding has an empty `VulnHash`. -/
theorem empty_hash_names_hash_field (K : Registry) (d : AnalysisData) (a : Analysis)
    (ha : d.Analysis = some a) :
    (IsUUID a.ID.toString = true → inEnum (sliceAnalysisStatus K) a.Status →
      a.CreatedAt.IsZero = false → a.FinishedAt.IsZero = false →
      (∀ av ∈ a.AnalysisVulnerabilities,
        inEnum (sliceTools K) av.Vulnerability.SecurityTool ∧
        inEnum (sliceConfidence K) av.Vulnerability.Confidence ∧
        inEnum (sliceLanguages K) av.Vulnerability.Language ∧
        inEnum (sliceSeverities K) av.Vulnerability.Severity ∧
        inEnum (sliceVulnerabilitiesType K) av.Vulnerability.Type_) →
      (∃ av ∈ a.AnalysisVulnerabilities, av.Vulnerability.VulnHash = "") →
      validateAnalysisData K (some d) =
        Outcome.returns (some (Error.analysis
          [(AnalysisField.AnalysisVulnerabilities,
            AnalysisFieldError.Errors
              [(VulnerabilityField.VulnHash, RuleError.ErrRequired)])]))) ∧
    (validateAnalysisData K (some d) = Outcome.returns none →
      ∀ av ∈ a.AnalysisVulnerabilities, av.Vulnerability.VulnHash ≠ "") := by
  constructor
  · intro hid hst hc hf hother hex
    have hloop := validateVulnerabilitiesLoop_empty_hash K a.AnalysisVulnerabilities hother hex
    rw [validateAnalysisData_some_analysis K d a ha]
    unfold validateAnalysisStruct
    simp only [Field, validate_id, validate_status, validate_time, validate_vulnerabilities,
      hloop, hst.1, hst.2, hc, hf, if_true, if_false]
    rfl
  · intro hv av hav
    rw [validateAnalysisData_some_analysis K d a ha] at hv
    have hnone : validateAnalysisStruct K a = none := by
      cases hs : validateAnalysisStruct K a with
      | none => rfl
      | some errs =>
        rw [hs] at hv
        exact absurd hv (by simp)
    exact (((validateAnalysisStruct_eq_none K a).mp hnone).2.2.2.2 av hav).2.1

/-- Witness of C7: the scenario of section 8 with a second finding whose hash
is empty. -/
theorem empty_hash_names_hash_field_witness :
    validateAnalysisData specRegistry (some emptyHashData) =
      Outcome.returns (some (Error.analysis
        [(AnalysisField.AnalysisVulnerabilities,
          AnalysisFieldError.Errors [(VulnerabilityField.VulnHash, RuleError.ErrRequired)])])) :=
  (empty_hash_names_hash_field specRegistry emptyHashData
    { specAnalysis with AnalysisVulnerabilities := [specFinding, emptyHashFinding] } rfl).1
    (by decide) (by simp only [inEnum]; decide) (by decide) (by decide)
    (by simp only [inEnum]; decide) ⟨emptyHashFinding, by decide, rfl⟩

/-- C8: for a non-nil `AnalysisData` whose `Analysis` is nil,
`validateAnalysisData` returns the validation error `ErrRequired` on the field
`Analysis`, and `DecodeAnalysisDataFromIoRead` returns that error for every
request whose body parses to it. -/
theorem nil_analysis_required (K : Registry) (d : AnalysisData) (h : d.Analysis = none) :
    validateAnalysisData K (some d) =
      Outcome.returns (some (Error.analysisData
        [(AnalysisDataField.Analysis, RuleError.ErrRequired)])) ∧
    ∀ (V1 : Type) (E : Env V1) (au : UseCases) (r : Request) (body : Body),
      r.Body = some body → au.parseBodyToAnalysis E r body = Except.ok (some d) →
      au.DecodeAnalysisDataFromIoRead E r =
        Outcome.returns (some d, some (Error.analysisData
          [(AnalysisDataField.Analysis, RuleError.ErrRequired)])) := by
  refine ⟨validateAnalysisData_nil_analysis K d h, ?_⟩
  intro V1 E au r body hb hp
  exact decode_of_parsed E au r body (some d) hb hp _
    (validateAnalysisData_nil_analysis E.registry d h)

/-- Witness of C8: the decoded body `{"analysis": null}`. -/
theorem nil_analysis_required_witness :
    nilAnalysisData.Analysis = none ∧
    NewAnalysisUseCases.DecodeAnalysisDataFromIoRead (yieldingEnv (some nilAnalysisData))
        plainRequest =
      Outcome.returns (some nilAnalysisData, some (Error.analysisData
        [(AnalysisDataField.Analysis, RuleError.ErrRequired)])) :=
  ⟨rfl, (nil_analysis_required specRegistry nilAnalysisData rfl).2 Unit
    (yieldingEnv (some nilAnalysisData)) NewAnalysisUseCases plainRequest
    { bytes := [123, 125] } rfl rfl⟩

theorem noBlank_slices (K : Registry) (hK : K.NoBlank) (v : String) :
    (v ∈ sliceTools K → v ≠ "") ∧ (v ∈ sliceLanguages K → v ≠ "") ∧
    (v ∈ sliceSeverities K → v ≠ "") ∧ (v ∈ sliceVulnerabilitiesType K → v ≠ "") ∧
    (v ∈ sliceAnalysisStatus K → v ≠ "") ∧ (v ∈ sliceConfidence K → v ≠ "") := by
  obtain ⟨h1, h2, h3, h4, h5, h6⟩ := hK
  refine ⟨?_, ?_, ?_, ?_, ?_, ?_⟩
  · intro h
    simp only [sliceTools, List.mem_cons, List.mem_singleton, List.not_mem_nil, or_false] at h
    rcases h with h | h | h | h | h | h | h | h | h | h | h | h | h | h | h | h | h | h | h | h <;>
      (rw [h]; exact h1 _)
  · intro h
    simp only [sliceLanguages, List.mem_cons, List.mem_singleton, List.not_mem_nil, or_false] at h
    rcases h with h | h | h | h | h | h | h | h | h | h | h | h | h | h | h | h | h | h | h | h <;>
      (rw [h]; exact h2 _)
  · intro h
    simp only [sliceSeverities, List.mem_cons, List.mem_singleton, List.not_mem_nil, or_false] at h
    rcases h with h | h | h | h | h | h <;> (rw [h]; exact h3 _)
  · intro h
    simp only [sliceVulnerabilitiesType, List.mem_cons, List.mem_singleton, List.not_mem_nil,
      or_false] at h
    rcases h with h | h | h | h <;> (rw [h]; exact h4 _)
  · intro h
    simp only [sliceAnalysisStatus, List.mem_cons, List.mem_singleton, List.not_mem_nil,
      or_false] at h
    rcases h with h | h | h <;> (rw [h]; exact h5 _)
  · intro h
    simp only [sliceConfidence, List.mem_cons, List.mem_singleton, List.not_mem_nil,
      or_false] at h
    rcases h with h | h | h <;> (rw [h]; exact h6 _)

theorem specRegistry_noBlank : specRegistry.NoBlank := by
  refine ⟨?_, ?_, ?_, ?_, ?_, ?_⟩ <;> intro c <;> cases c <;> decide

/-- C9: with enumeration constants that are not blank, a report whose `ID` is
a valid UUID, whose status is a constant of `sliceAnalysisStatus`, whose
`CreatedAt` and `FinishedAt` are not zero and all of whose findings have a
non-empty hash and a tool, confidence, language, severity and type in their
slices is accepted by `validateAnalysisData`; `DecodeAnalysisDataFromIoRead`
returns the parsed report itself with a nil error, and validating the returned
report again succeeds. -/
theorem valid_report_accepted (K : Registry) (d : AnalysisData) (a : Analysis)
    (hK : K.NoBlank) (ha : d.Analysis = some a) (hid : IsUUID a.ID.toString = true)
    (hst : a.Status ∈ sliceAnalysisStatus K)
    (hc : a.CreatedAt.IsZero = false) (hf : a.FinishedAt.IsZero = false)
    (hv : ∀ av ∈ a.AnalysisVulnerabilities,
      av.Vulnerability.VulnHash ≠ "" ∧
      av.Vulnerability.SecurityTool ∈ sliceTools K ∧
      av.Vulnerability.Confidence ∈ sliceConfidence K ∧
      av.Vulnerability.Language ∈ sliceLanguages K ∧
      av.Vulnerability.Severity ∈ sliceSeverities K ∧
      av.Vulnerability.Type_ ∈ sliceVulnerabilitiesType K) :
    validateAnalysisData K (some d) = Outcome.returns none ∧
    ∀ (V1 : Type) (E : Env V1) (au : UseCases) (r : Request) (body : Body),
      E.registry = K → r.Body = some body →
      au.parseBodyToAnalysis E r body = Except.ok (some d) →
      ∃ returned, au.DecodeAnalysisDataFromIoRead E r = Outcome.returns (returned, none) ∧
        returned = some d ∧ validateAnalysisData E.registry returned = Outcome.returns none := by
  have hvalid : validateAnalysisData K (some d) = Outcome.returns none := by
    rw [validateAnalysisData_some_analysis K d a ha]
    have hnone : validateAnalysisStruct K a = none := by
      rw [validateAnalysisStruct_eq_none]
      refine ⟨hid, ⟨(noBlank_slices K hK a.Status).2.2.2.2.1 hst, hst⟩,
        hc, hf, ?_⟩
      intro av hav
      obtain ⟨hh, ht, hco, hl, hse, hty⟩ := hv av hav
      exact ⟨⟨(noBlank_slices K hK _).1 ht, ht⟩, hh,
        ⟨(noBlank_slices K hK _).2.2.2.2.2 hco, hco⟩,
        ⟨(noBlank_slices K hK _).2.1 hl, hl⟩,
        ⟨(noBlank_slices K hK _).2.2.1 hse, hse⟩,
        ⟨(noBlank_slices K hK _).2.2.2.1 hty, hty⟩⟩
    rw [hnone]
    rfl
  refine ⟨hvalid, ?_⟩
  intro V1 E au r body hE hb hp
  subst hE
  exact ⟨some d, decode_of_parsed E au r body (some d) hb hp none hvalid, rfl, hvalid⟩

/-- Witness of C9: the scenario of section 8 of the spec. -/
theorem valid_report_accepted_witness :
    validateAnalysisData specRegistry (some specData) = Outcome.returns none ∧
    ∃ returned,
      NewAnalysisUseCases.DecodeAnalysisDataFromIoRead (yieldingEnv (some specData))
        plainRequest = Outcome.returns (returned, none) ∧
      returned = some specData ∧
      validateAnalysisData specRegistry returned = Outcome.returns none := by
  have h := valid_report_accepted specRegistry specData specAnalysis specRegistry_noBlank rfl
    (by decide) (by decide) (by decide) (by decide) (by decide)
  exact ⟨h.1, h.2 Unit (yieldingEnv (some specData)) NewAnalysisUseCases plainRequest
    { bytes := [123, 125] } rfl rfl rfl⟩

/-- Counterexample of C10 as stated: with a nil body the decoder returns
`enums.ErrorBodyEmpty`, whose kind is `EmptyBody` and not `MalformedPayload`;
a body that fails parsing gives another error, the one of the parser. -/
theorem absent_body_not_malformed_payload :
    NewAnalysisUseCases.DecodeAnalysisDataFromIoRead rejectingEnv absentBodyRequest =
      Outcome.returns (none, some Error.ErrorBodyEmpty) ∧
    Error.ErrorBodyEmpty.kind ≠ ErrorKind.MalformedPayload ∧
    NewAnalysisUseCases.DecodeAnalysisDataFromIoRead rejectingEnv plainRequest =
      Outcome.returns (none, some (Error.parser "body is invalid")) ∧
    Error.ErrorBodyEmpty ≠ Error.parser "body is invalid" := by
  refine ⟨by decide, by decide, by decide, by decide⟩

/-- C10, amended: with a nil body `DecodeAnalysisDataFromIoRead` returns a nil
report and the error `enums.ErrorBodyEmpty`, whose kind is `EmptyBody` and not
`MalformedPayload`. -/
theorem absent_body_fails_with_empty_body {V1 : Type} (E : Env V1) (au : UseCases)
    (r : Request) (h : r.Body = none) :
    ∃ err, au.DecodeAnalysisDataFromIoRead E r = Outcome.returns (none, some err) ∧
      err = Error.ErrorBodyEmpty ∧ err.kind = ErrorKind.EmptyBody ∧
      err.kind ≠ ErrorKind.MalformedPayload := by
  refine ⟨Error.ErrorBodyEmpty, ?_, rfl, rfl, by decide⟩
  simp only [UseCases.DecodeAnalysisDataFromIoRead, h]

/-- Witness of C10, amended: a request whose body is nil. -/
theorem absent_body_fails_with_empty_body_witness :
    absentBodyRequest.Body = none ∧
    ∃ err, NewAnalysisUseCases.DecodeAnalysisDataFromIoRead rejectingEnv absentBodyRequest =
        Outcome.returns (none, some err) ∧
      err = Error.ErrorBodyEmpty ∧ err.kind = ErrorKind.EmptyBody ∧
      err.kind ≠ ErrorKind.MalformedPayload :=
  ⟨rfl, absent_body_fails_with_empty_body rejectingEnv NewAnalysisUseCases absentBodyRequest rfl⟩

/-! ## Claims on the decoder -/

/-- C11: with a nil body `DecodeAnalysisDataFromIoRead` returns a nil report
and `enums.ErrorBodyEmpty`, whatever the header declares and whatever the
parser, the adapter and the registry of the environment are, so neither the
parser nor the validator contributes to the result. -/
theorem absent_body_returns_error_body_empty {V1 : Type} (E : Env V1) (au : UseCases)
    (header : List (String × List String)) :
    au.DecodeAnalysisDataFromIoRead E { Header := header, Body := none } =
      Outcome.returns (none, some Error.ErrorBodyEmpty) := rfl

/-- C12: for a request with a non-nil body, when parsing into the selected
shape fails (the legacy shape when `isVersion1` holds of the version header,
the current shape otherwise), `DecodeAnalysisDataFromIoRead` returns a nil
report and the error of the parser, whatever the legacy adapter and the
registry of the validator are. -/
theorem parse_failure_returned {V1 : Type} (E : Env V1) (au : UseCases) (r : Request)
    (body : Body) (err : Error) (hb : r.Body = some body)
    (hfail : (au.isVersion1 E.unicodeFold r.cliVersion = true ∧
        E.ParseBodyToEntityV1 body = Except.error err) ∨
      (au.isVersion1 E.unicodeFold r.cliVersion = false ∧
        E.ParseBodyToEntity body = Except.error err)) :
    ∀ (adapter : V1 → Option AnalysisData) (registry : Registry),
      au.DecodeAnalysisDataFromIoRead
          { E with ParseDataV1ToV2 := adapter, registry := registry } r =
        Outcome.returns (none, some err) := by
  intro adapter registry
  rcases hfail with ⟨hv, hp⟩ | ⟨hv, hp⟩
  · simp only [UseCases.DecodeAnalysisDataFromIoRead, hb, UseCases.parseBodyToAnalysis, hv, hp,
      if_true]
  · simp [UseCases.DecodeAnalysisDataFromIoRead, hb, UseCases.parseBodyToAnalysis, hv, hp]

/-- Witness of C12: a body that the parser of the current schema rejects, with
an adapter and a registry of the validator that would accept every report. -/
theorem parse_failure_returned_witness :
    NewAnalysisUseCases.DecodeAnalysisDataFromIoRead
        { rejectingEnv with ParseDataV1ToV2 := fun _ => some specData, registry := specRegistry }
        plainRequest =
      Outcome.returns (none, some (Error.parser "body is invalid")) :=
  parse_failure_returned rejectingEnv NewAnalysisUseCases plainRequest { bytes := [123, 125] }
    (Error.parser "body is invalid") rfl (Or.inr ⟨by decide, rfl⟩) (fun _ => some specData) specRegistry

theorem lookup_append_first {ε : Type} (before after : List (String × ε)) (k : String) (x : ε)
    (h : ∀ kv ∈ before, kv.1 ≠ k) : (before ++ (k, x) :: after).lookup k = some x := by
  induction before with
  | nil => simp [List.lookup]
  | cons kv rest ih =>
    obtain ⟨g, o⟩ := kv
    have hne : (k == g) = false := by
      have := h (g, o) (List.mem_cons_self _ _)
      simpa using fun he : k = g => this he.symm
    simp only [List.cons_append, List.lookup, hne]
    exact ih (fun kv hkv => h kv (List.mem_cons_of_mem _ hkv))

theorem canonical_version_key :
    CanonicalMIMEHeaderKey "X-Horusec-CLI-Version" = "X-Horusec-Cli-Version" := by
  decide

/-- C13: for a request with a non-nil body, `parseBodyToAnalysis` reads the
header `X-Horusec-CLI-Version`, stored under its canonical key: the first value
of the first entry of that key, and the empty string when no entry has the key,
whatever the other headers hold. When `isVersion1` holds of this value, for the
use case of `NewAnalysisUseCases` exactly when its lower case is a listed
version, the legacy shape is parsed and `ParseDataV1ToV2` of it is returned;
otherwise what parsing the current shape gives is returned, with no
adaptation. In both cases `DecodeAnalysisDataFromIoRead` returns the parsed
report with the result of `validateAnalysisData` on it. -/
theorem schema_selected_by_version {V1 : Type} (E : Env V1) (au : UseCases) (r : Request)
    (body : Body) :
    (au.isVersion1 E.unicodeFold r.cliVersion = true →
      au.parseBodyToAnalysis E r body =
        match E.ParseBodyToEntityV1 body with
        | Except.error err => Except.error err
        | Except.ok analysisDataV1 => Except.ok (E.ParseDataV1ToV2 analysisDataV1)) ∧
    (au.isVersion1 E.unicodeFold r.cliVersion = false →
      au.parseBodyToAnalysis E r body =
        match E.ParseBodyToEntity body with
        | Except.error err => Except.error err
        | Except.ok analysisData => Except.ok analysisData) ∧
    (∀ d, r.Body = some body → au.parseBodyToAnalysis E r body = Except.ok d →
      au.DecodeAnalysisDataFromIoRead E r =
        match validateAnalysisData E.registry d with
        | Outcome.panics => Outcome.panics
        | Outcome.returns err => Outcome.returns (d, err)) ∧
    NewAnalysisUseCases.isVersion1 E.unicodeFold legacyRequest.cliVersion = true ∧
    NewAnalysisUseCases.isVersion1 E.unicodeFold plainRequest.cliVersion = false ∧
    (∀ (before after : List (String × List String)) (v : String) (vs : List String),
      r.Header = before ++ ("X-Horusec-Cli-Version", v :: vs) :: after →
      (∀ kv ∈ before, kv.1 ≠ "X-Horusec-Cli-Version") → r.cliVersion = v) ∧
    ((∀ kv ∈ r.Header, kv.1 ≠ "X-Horusec-Cli-Version") →
      r.cliVersion = "" ∧
      NewAnalysisUseCases.parseBodyToAnalysis E r body =
        match E.ParseBodyToEntity body with
        | Except.error err => Except.error err
        | Except.ok analysisData => Except.ok analysisData) ∧
    (NewAnalysisUseCases.isVersion1 E.unicodeFold r.cliVersion = true ↔
      r.cliVersion.toLower ∈ ["v1.7.0", "v1.8.0", "v1.8.1", "v1.8.2", "v1.8.3", "v1.8.4",
        "v1.9.0", "v1.10.0", "v1.10.1", "v1.10.2", "v1.10.3"]) ∧
    NewAnalysisUseCases.isVersion1 E.unicodeFold otherHeaderRequest.cliVersion = false ∧
    NewAnalysisUseCases.isVersion1 E.unicodeFold laterHeaderRequest.cliVersion = true := by
  have hempty : NewAnalysisUseCases.isVersion1 E.unicodeFold "" = false := by
    have hn : ¬ (NewAnalysisUseCases.isVersion1 E.unicodeFold "" = true) := by
      rw [isVersion1_iff_toLower, String.toLower, String.map_eq]
      decide
    simpa using hn
  have hmissing : ∀ q : Request, (∀ kv ∈ q.Header, kv.1 ≠ "X-Horusec-Cli-Version") →
      q.cliVersion = "" := by
    intro q hq
    have hl : q.Header.lookup "X-Horusec-Cli-Version" = none := by
      apply lookup_eq_none_of_not_mem
      intro hm
      obtain ⟨kv, hkv, hk⟩ := List.mem_map.mp hm
      exact hq kv hkv hk
    simp only [Request.cliVersion, Header.Get, canonical_version_key, hl]
  refine ⟨?_, ?_, ?_, ?_, ?_, ?_, ?_, ?_, ?_, ?_⟩
  · intro h
    simp only [UseCases.parseBodyToAnalysis, h, if_true]
  · intro h
    simp [UseCases.parseBodyToAnalysis, h]
  · intro d hb hp
    simp only [UseCases.DecodeAnalysisDataFromIoRead, hb, hp]
  · have hc : legacyRequest.cliVersion = "V1.8.2" := by decide
    rw [hc, isVersion1_iff_toLower, String.toLower, String.map_eq]
    decide
  · have hc : plainRequest.cliVersion = "" := by decide
    rw [hc]
    exact hempty
  · intro before after v vs hh hb
    simp only [Request.cliVersion, Header.Get, canonical_version_key, hh,
      lookup_append_first before after "X-Horusec-Cli-Version" (v :: vs) hb]
  · intro hq
    have hc := hmissing r hq
    refine ⟨hc, ?_⟩
    simp [UseCases.parseBodyToAnalysis, hc, hempty]
  · exact isVersion1_iff_toLower E.unicodeFold r.cliVersion
  · have hc : otherHeaderRequest.cliVersion = "" := by decide
    rw [hc]
    exact hempty
  · have hc : laterHeaderRequest.cliVersion = "v1.10.3" := by decide
    rw [hc, isVersion1_iff_toLower, String.toLower, String.map_eq]
    decide

/-- Witness of C13: the same body is decoded as the adapted legacy report
under the header `V1.8.2`, also when the version header comes after another
header, and as the current report without a header or with another header
only. -/
theorem schema_selected_by_version_witness :
    NewAnalysisUseCases.parseBodyToAnalysis (schemaEnv (some specData) (some nilAnalysisData))
        legacyRequest { bytes := [123, 125] } = Except.ok (some specData) ∧
    NewAnalysisUseCases.parseBodyToAnalysis (schemaEnv (some specData) (some nilAnalysisData))
        plainRequest { bytes := [123, 125] } = Except.ok (some nilAnalysisData) ∧
    NewAnalysisUseCases.parseBodyToAnalysis (schemaEnv (some specData) (some nilAnalysisData))
        laterHeaderRequest { bytes := [123, 125] } = Except.ok (some specData) ∧
    NewAnalysisUseCases.parseBodyToAnalysis (schemaEnv (some specData) (some nilAnalysisData))
        otherHeaderRequest { bytes := [123, 125] } = Except.ok (some nilAnalysisData) := by
  have h := schema_selected_by_version (schemaEnv (some specData) (some nilAnalysisData))
    NewAnalysisUseCases
  exact ⟨(h legacyRequest { bytes := [123, 125] }).1
      (h legacyRequest { bytes := [123, 125] }).2.2.2.1,
    (h plainRequest { bytes := [123, 125] }).2.1
      (h plainRequest { bytes := [123, 125] }).2.2.2.2.1,
    (h laterHeaderRequest { bytes := [123, 125] }).1
      (h laterHeaderRequest { bytes := [123, 125] }).2.2.2.2.2.2.2.2.2,
    (h otherHeaderRequest { bytes := [123, 125] }).2.1
      (h otherHeaderRequest { bytes := [123, 125] }).2.2.2.2.2.2.2.2.1⟩

/-! ## Claims on the validator -/

theorem validate_required_in_isSome (elements : List String) (v : String)
    (h : ¬ inEnum elements v) : (Validate v [Required, In elements]).isSome = true := by
  cases hv : Validate v [Required, In elements] with
  | some err => rfl
  | none => exact absurd ((validate_required_in_eq_none elements v).mp hv) h

/-- Counterexample of C14 as stated: in a report whose first finding has an
empty hash and whose second finding has an unknown tool, the error describes
the hash of the first finding only; the tool of the second finding is not in
`sliceTools` and has no entry. -/
theorem later_invalid_finding_not_described :
    validateAnalysisData specRegistry (some twoInvalidData) =
      Outcome.returns (some (Error.analysis
        [(AnalysisField.AnalysisVulnerabilities,
          AnalysisFieldError.Errors [(VulnerabilityField.VulnHash, RuleError.ErrRequired)])])) ∧
    unknownToolFinding.Vulnerability.SecurityTool ∉ sliceTools specRegistry := by
  refine ⟨by decide, by decide⟩

/-- C14, amended: for a report with a non-nil `Analysis` the validator returns
success or a validation failure in which each of the top-level fields
`Status`, `CreatedAt` and `FinishedAt` that is violated has an entry and in
which the entry of `AnalysisVulnerabilities` holds the errors of the first
invalid finding, with an entry for every violated field of that finding. -/
theorem validation_describes_violated_fields (K : Registry) (d : AnalysisData) (a : Analysis)
    (ha : d.Analysis = some a) :
    validateAnalysisData K (some d) = Outcome.returns none ∨
    ∃ errs, validateAnalysisData K (some d) = Outcome.returns (some (Error.analysis errs)) ∧
      (¬ inEnum (sliceAnalysisStatus K) a.Status →
        (errs.lookup AnalysisField.Status).isSome = true) ∧
      (a.CreatedAt.IsZero = true → (errs.lookup AnalysisField.CreatedAt).isSome = true) ∧
      (a.FinishedAt.IsZero = true → (errs.lookup AnalysisField.FinishedAt).isSome = true) ∧
      ∀ (i : Nat) (av : AnalysisVulnerabilities), a.AnalysisVulnerabilities[i]? = some av →
        ¬ validVulnerability K av.Vulnerability →
        (∀ (j : Nat) (p : AnalysisVulnerabilities), j < i →
          a.AnalysisVulnerabilities[j]? = some p → validVulnerability K p.Vulnerability) →
        ∃ verrs, errs.lookup AnalysisField.AnalysisVulnerabilities =
            some (AnalysisFieldError.Errors verrs) ∧
          (¬ inEnum (sliceTools K) av.Vulnerability.SecurityTool →
            (verrs.lookup VulnerabilityField.SecurityTool).isSome = true) ∧
          (av.Vulnerability.VulnHash = "" →
            (verrs.lookup VulnerabilityField.VulnHash).isSome = true) ∧
          (¬ inEnum (sliceConfidence K) av.Vulnerability.Confidence →
            (verrs.lookup VulnerabilityField.Confidence).isSome = true) ∧
          (¬ inEnum (sliceLanguages K) av.Vulnerability.Language →
            (verrs.lookup VulnerabilityField.Language).isSome = true) ∧
          (¬ inEnum (sliceSeverities K) av.Vulnerability.Severity →
            (verrs.lookup VulnerabilityField.Severity).isSome = true) ∧
          (¬ inEnum (sliceVulnerabilitiesType K) av.Vulnerability.Type_ →
            (verrs.lookup VulnerabilityField.Type_).isSome = true) := by
  rw [validateAnalysisData_some_analysis K d a ha]
  cases hs : validateAnalysisStruct K a with
  | none => exact Or.inl rfl
  | some errs =>
    refine Or.inr ⟨errs, rfl, ?_⟩
    obtain ⟨_, hst, hc, hf, hvul⟩ := validateAnalysisStruct_lookup K a errs hs
    refine ⟨?_, ?_, ?_, ?_⟩
    · intro h
      rw [hst]
      by_cases he : a.Status = ""
      · simp [he]
      · have hm : a.Status ∉ sliceAnalysisStatus K := fun hm => h ⟨he, hm⟩
        simp [he, hm]
    · intro h
      rw [hc]
      simp [h]
    · intro h
      rw [hf]
      simp [h]
    · intro i av hi hinv hpre
      have hloop := validateVulnerabilitiesLoop_first K a.AnalysisVulnerabilities i av hi hpre hinv
      cases hset : setupValidationVulnerabilities K av.Vulnerability with
      | none =>
        exact absurd ((setupValidationVulnerabilities_eq_none K av.Vulnerability).mp hset) hinv
      | some verrs =>
        rw [hloop, hset] at hvul
        obtain ⟨h1, h2, h3, h4, h5, h6⟩ :=
          setupValidationVulnerabilities_lookup K av.Vulnerability verrs hset
        refine ⟨verrs, hvul, ?_, ?_, ?_, ?_, ?_, ?_⟩
        · intro h
          rw [h1]
          exact validate_required_in_isSome _ _ h
        · intro h
          rw [h2, validate_required]
          simp [h]
        · intro h
          rw [h3]
          exact validate_required_in_isSome _ _ h
        · intro h
          rw [h4]
          exact validate_required_in_isSome _ _ h
        · intro h
          rw [h5]
          exact validate_required_in_isSome _ _ h
        · intro h
          rw [h6]
          exact validate_required_in_isSome _ _ h

/-- Witness of C14, amended: the report with two invalid findings has an entry
for the hash of its first finding. -/
theorem validation_describes_violated_fields_witness :
    ∃ errs verrs,
      validateAnalysisData specRegistry (some twoInvalidData) =
        Outcome.returns (some (Error.analysis errs)) ∧
      errs.lookup AnalysisField.AnalysisVulnerabilities =
        some (AnalysisFieldError.Errors verrs) ∧
      (verrs.lookup VulnerabilityField.VulnHash).isSome = true := by
  rcases validation_describes_violated_fields specRegistry twoInvalidData
    { specAnalysis with AnalysisVulnerabilities := [emptyHashFinding, unknownToolFinding] }
    rfl with h | ⟨errs, h, _, _, _, hv⟩
  · exact absurd h (by decide)
  · obtain ⟨verrs, h1, _, h2, _⟩ := hv 0 emptyHashFinding rfl
      (by simp only [validVulnerability, inEnum]; decide)
      (fun j p hj _ => absurd hj (Nat.not_lt_zero j))
    exact ⟨errs, verrs, h, h1, h2 rfl⟩

theorem validateAnalysisData_accepts_iff (K : Registry) (d : AnalysisData) (a : Analysis)
    (ha : d.Analysis = some a) :
    validateAnalysisData K (some d) = Outcome.returns none ↔
      validateAnalysisStruct K a = none := by
  rw [validateAnalysisData_some_analysis K d a ha]
  cases validateAnalysisStruct K a <;> simp

/-- C15: for every permutation of the findings of a report with a non-nil
`Analysis`, validation of the permuted report succeeds exactly when validation
of the original report succeeds. -/
theorem validation_order_independent (K : Registry) (d : AnalysisData) (a : Analysis)
    (permuted : List AnalysisVulnerabilities) (ha : d.Analysis = some a)
    (hperm : permuted.Perm a.AnalysisVulnerabilities) :
    validateAnalysisData K
        (some { d with Analysis := some { a with AnalysisVulnerabilities := permuted } }) =
      Outcome.returns none ↔
    validateAnalysisData K (some d) = Outcome.returns none := by
  rw [validateAnalysisData_accepts_iff K d a ha,
    validateAnalysisData_accepts_iff K _ ({ a with AnalysisVulnerabilities := permuted }) rfl,
    validateAnalysisStruct_eq_none, validateAnalysisStruct_eq_none]
  have hmem : ∀ av, av ∈ permuted ↔ av ∈ a.AnalysisVulnerabilities := fun av => hperm.mem_iff
  simp only [hmem]

/-- Witness of C15: the findings of `unknownToolData` in the other order are
rejected as well. -/
theorem validation_order_independent_witness :
    validateAnalysisData specRegistry
        (some { unknownToolData with
          Analysis := some { specAnalysis with
            AnalysisVulnerabilities := [unknownToolFinding, specFinding] } }) =
      Outcome.returns none ↔
    validateAnalysisData specRegistry (some unknownToolData) = Outcome.returns none :=
  validation_order_independent specRegistry unknownToolData
    { specAnalysis with AnalysisVulnerabilities := [specFinding, unknownToolFinding] }
    [unknownToolFinding, specFinding] rfl (List.Perm.swap _ _ [])

theorem first_invalid_split (K : Registry) (l : List AnalysisVulnerabilities)
    (h : ∃ av ∈ l, ¬ validVulnerability K av.Vulnerability) :
    ∃ before av after, l = before ++ av :: after ∧
      (∀ p ∈ before, validVulnerability K p.Vulnerability) ∧
      ¬ validVulnerability K av.Vulnerability := by
  induction l with
  | nil =>
    obtain ⟨av, hav, _⟩ := h
    exact absurd hav (List.not_mem_nil av)
  | cons x xs ih =>
    by_cases hx : validVulnerability K x.Vulnerability
    · have hrest : ∃ av ∈ xs, ¬ validVulnerability K av.Vulnerability := by
        obtain ⟨av, hav, hinv⟩ := h
        rcases List.mem_cons.mp hav with he | hm
        · rw [he] at hinv
          exact absurd hx hinv
        · exact ⟨av, hm, hinv⟩
      obtain ⟨before, av, after, hl, hb, hinv⟩ := ih hrest
      refine ⟨x :: before, av, after, by rw [hl]; rfl, ?_, hinv⟩
      intro p hp
      rcases List.mem_cons.mp hp with he | hm
      · rw [he]
        exact hx
      · exact hb p hm
    · exact ⟨[], x, xs, rfl, fun p hp => absurd hp (List.not_mem_nil p), hx⟩

theorem validateVulnerabilitiesLoop_append (K : Registry)
    (before : List AnalysisVulnerabilities) (av : AnalysisVulnerabilities)
    (after : List AnalysisVulnerabilities)
    (hb : ∀ p ∈ before, validVulnerability K p.Vulnerability)
    (hinv : ¬ validVulnerability K av.Vulnerability) :
    validateVulnerabilitiesLoop K (before ++ av :: after) =
      setupValidationVulnerabilities K av.Vulnerability := by
  induction before with
  | nil =>
    simp only [List.nil_append, validateVulnerabilitiesLoop]
    cases h : setupValidationVulnerabilities K av.Vulnerability with
    | none => exact absurd ((setupValidationVulnerabilities_eq_none K av.Vulnerability).mp h) hinv
    | some err => rfl
  | cons p before ih =>
    have hp := (setupValidationVulnerabilities_eq_none K p.Vulnerability).mpr
      (hb p (List.mem_cons_self p before))
    simp only [List.cons_append, validateVulnerabilitiesLoop, hp]
    exact ih (fun q hq => hb q (List.mem_cons_of_mem p hq))

/-- C17: in a list with at least one invalid finding, the rule built by
`validateVulnerabilities` returns the error that
`setupValidationVulnerabilities` gives for the first invalid finding; the
findings after it do not change the result; and the validation of a report
with these findings fails, with that error under `AnalysisVulnerabilities`. -/
theorem vulnerabilities_loop_short_circuits (K : Registry) (l : List AnalysisVulnerabilities)
    (h : ∃ av ∈ l, ¬ validVulnerability K av.Vulnerability) :
    ∃ before av after err, l = before ++ av :: after ∧
      (∀ p ∈ before, validVulnerability K p.Vulnerability) ∧
      ¬ validVulnerability K av.Vulnerability ∧
      setupValidationVulnerabilities K av.Vulnerability = some err ∧
      (∀ value, validateVulnerabilities K l value = some (AnalysisFieldError.Errors err)) ∧
      (∀ others value, validateVulnerabilities K (before ++ av :: others) value =
        some (AnalysisFieldError.Errors err)) ∧
      (∀ (d : AnalysisData) (a : Analysis), d.Analysis = some a →
        a.AnalysisVulnerabilities = l →
        ∃ errs, validateAnalysisData K (some d) = Outcome.returns (some (Error.analysis errs)) ∧
          errs.lookup AnalysisField.AnalysisVulnerabilities =
            some (AnalysisFieldError.Errors err)) := by
  obtain ⟨before, av, after, hl, hb, hinv⟩ := first_invalid_split K l h
  cases hset : setupValidationVulnerabilities K av.Vulnerability with
  | none => exact absurd ((setupValidationVulnerabilities_eq_none K av.Vulnerability).mp hset) hinv
  | some err =>
    have hloop : ∀ others, validateVulnerabilitiesLoop K (before ++ av :: others) = some err := by
      intro others
      rw [validateVulnerabilitiesLoop_append K before av others hb hinv, hset]
    refine ⟨before, av, after, err, hl, hb, hinv, hset, ?_, ?_, ?_⟩
    · intro value
      simp only [validateVulnerabilities, hl, hloop after, Option.map_some']
    · intro others value
      simp only [validateVulnerabilities, hloop others, Option.map_some']
    · intro d a ha hal
      have hnot : ¬ (IsUUID a.ID.toString = true ∧
          inEnum (sliceAnalysisStatus K) a.Status ∧
          a.CreatedAt.IsZero = false ∧ a.FinishedAt.IsZero = false ∧
          ∀ x ∈ a.AnalysisVulnerabilities, validVulnerability K x.Vulnerability) := by
        rintro ⟨_, _, _, _, hall⟩
        apply hinv
        apply hall
        rw [hal, hl]
        simp
      obtain ⟨errs, herrs⟩ := validateAnalysisStruct_isSome_of_not_valid K a hnot
      refine ⟨errs, ?_, ?_⟩
      · rw [validateAnalysisData_some_analysis K d a ha, herrs]
        rfl
      · rw [(validateAnalysisStruct_lookup K a errs herrs).2.2.2.2, hal, hl, hloop after]
        rfl

/-- Witness of C17: in `twoInvalidData` the error is the one of the first
finding, whose hash is empty. -/
theorem vulnerabilities_loop_short_circuits_witness :
    ∃ before av after err, [emptyHashFinding, unknownToolFinding] = before ++ av :: after ∧
      (∀ p ∈ before, validVulnerability specRegistry p.Vulnerability) ∧
      ¬ validVulnerability specRegistry av.Vulnerability ∧
      setupValidationVulnerabilities specRegistry av.Vulnerability = some err ∧
      (∀ value, validateVulnerabilities specRegistry [emptyHashFinding, unknownToolFinding]
        value = some (AnalysisFieldError.Errors err)) := by
  obtain ⟨before, av, after, err, h1, h2, h3, h4, h5, _⟩ :=
    vulnerabilities_loop_short_circuits specRegistry [emptyHashFinding, unknownToolFinding]
      ⟨emptyHashFinding, by decide, by simp only [validVulnerability, inEnum]; decide⟩
  exact ⟨before, av, after, err, h1, h2, h3, h4, h5⟩

/-- C18, the code at the failing input: when the parser leaves the decoded
`AnalysisData` pointer nil, as for the JSON document `null`,
`validateAnalysisData` panics on `&analysisData.Analysis`, and so does
`DecodeAnalysisDataFromIoRead`; no validation error is returned. -/
theorem nil_analysis_data_panics :
    validateAnalysisData specRegistry none = Outcome.panics ∧
    NewAnalysisUseCases.DecodeAnalysisDataFromIoRead (yieldingEnv none) plainRequest =
      Outcome.panics ∧
    ∀ (V1 : Type) (E : Env V1) (au : UseCases) (r : Request) (body : Body),
      r.Body = some body → au.parseBodyToAnalysis E r body = Except.ok none →
      au.DecodeAnalysisDataFromIoRead E r = Outcome.panics := by
  refine ⟨rfl, by decide, ?_⟩
  intro V1 E au r body hb hp
  simp only [UseCases.DecodeAnalysisDataFromIoRead, hb, hp, validateAnalysisData]

/-- C19: for a non-nil `AnalysisData`, `validateAnalysisData` never panics:
with a nil `Analysis`, on which `validateAnalysisToCLIv2` would panic, it
returns the `Required` error without calling it, and with a non-nil `Analysis`
its result is the one of `validateAnalysisToCLIv2` on that analysis; an
analysis with an empty status, zero times and no finding passes `Required` and
is rejected by the checks of `validateAnalysisToCLIv2`. -/
theorem analysis_required_before_fields (K : Registry) (d : AnalysisData) :
    validateAnalysisData K (some d) ≠ Outcome.panics ∧
    (d.Analysis = none →
      validateAnalysisToCLIv2 K d.Analysis = Outcome.panics ∧
      validateAnalysisData K (some d) =
        Outcome.returns (some (Error.analysisData
          [(AnalysisDataField.Analysis, RuleError.ErrRequired)]))) ∧
    (∀ a, d.Analysis = some a →
      Required d.Analysis = none ∧
      validateAnalysisData K (some d) = validateAnalysisToCLIv2 K (some a)) ∧
    (∀ a, d.Analysis = some a → a.Status = "" → a.CreatedAt.IsZero = true →
      a.FinishedAt.IsZero = true → a.AnalysisVulnerabilities = [] →
      ∃ errs, validateAnalysisData K (some d) = Outcome.returns (some (Error.analysis errs)) ∧
        errs.lookup AnalysisField.Status = some (AnalysisFieldError.rule RuleError.ErrRequired) ∧
        errs.lookup AnalysisField.CreatedAt =
          some (AnalysisFieldError.rule RuleError.ErrRequired) ∧
        errs.lookup AnalysisField.FinishedAt =
          some (AnalysisFieldError.rule RuleError.ErrRequired)) := by
  refine ⟨?_, ?_, ?_, ?_⟩
  · cases ha : d.Analysis with
    | none =>
      rw [validateAnalysisData_nil_analysis K d ha]
      simp
    | some a =>
      rw [validateAnalysisData_some_analysis K d a ha]
      simp
  · intro ha
    refine ⟨?_, validateAnalysisData_nil_analysis K d ha⟩
    rw [ha]
    rfl
  · intro a ha
    refine ⟨?_, ?_⟩
    · rw [ha]
      rfl
    · rw [validateAnalysisData_some_analysis K d a ha]
      rfl
  · intro a ha hs hc hf _
    obtain ⟨errs, herrs⟩ := validateAnalysisStruct_isSome_of_not_valid K a (by
      rintro ⟨_, hst, _⟩
      exact hst.1 hs)
    obtain ⟨_, h2, h3, h4, _⟩ := validateAnalysisStruct_lookup K a errs herrs
    refine ⟨errs, ?_, ?_, ?_, ?_⟩
    · rw [validateAnalysisData_some_analysis K d a ha, herrs]
      rfl
    · rw [h2]
      simp [hs]
    · rw [h3]
      simp [hc]
    · rw [h4]
      simp [hf]

/-- Witness of C19: the report whose analysis has every field at its zero
value is rejected by the checks of `validateAnalysisToCLIv2`. -/
theorem analysis_required_before_fields_witness :
    ∃ errs, validateAnalysisData specRegistry
        (some { Analysis := some blankAnalysis, RepositoryName := "" }) =
        Outcome.returns (some (Error.analysis errs)) ∧
      errs.lookup AnalysisField.Status = some (AnalysisFieldError.rule RuleError.ErrRequired) ∧
      errs.lookup AnalysisField.CreatedAt =
        some (AnalysisFieldError.rule RuleError.ErrRequired) ∧
      errs.lookup AnalysisField.FinishedAt =
        some (AnalysisFieldError.rule RuleError.ErrRequired) :=
  (analysis_required_before_fields specRegistry
    { Analysis := some blankAnalysis, RepositoryName := "" }).2.2.2 blankAnalysis rfl rfl
    (by decide) (by decide) rfl

theorem errors_keys_sublist {φ ε : Type} (fields : List (φ × Option ε)) :
    ((fields.filterMap (fun fr => fr.2.map (fun err => (fr.1, err)))).map Prod.fst).Sublist
      (fields.map Prod.fst) := by
  induction fields with
  | nil => exact List.Sublist.slnil
  | cons fr rest ih =>
    obtain ⟨g, o⟩ := fr
    cases o with
    | none =>
      simp only [List.filterMap_cons, Option.map_none', List.map_cons]
      exact List.Sublist.cons g ih
    | some err =>
      simp only [List.filterMap_cons, Option.map_some', List.map_cons]
      exact List.Sublist.cons₂ g ih

theorem validateAnalysisStruct_keys_nodup (K : Registry) (a : Analysis) (errs : AnalysisErrors)
    (h : validateAnalysisStruct K a = some errs) : (errs.map Prod.fst).Nodup := by
  unfold validateAnalysisStruct at h
  rw [validateStruct_eq_some _ _ h]
  exact List.Nodup.sublist (errors_keys_sublist _) (by simp [Field])

/-- C20: for a non-nil analysis, `validateAnalysisToCLIv2` returns an error as
soon as one of `Status`, `CreatedAt`, `FinishedAt` and
`AnalysisVulnerabilities` is violated; the returned error has at most one entry
per field, and it has an entry for each of these four fields exactly when that
field is violated, so several violations are all named; within a field the
entry is the error of the first failing rule: `ErrRequired` for an empty
status, and `ErrRequired` for a zero `CreatedAt`, on which `NilOrNotEmpty`
fails as well. -/
theorem top_level_violations_accumulated (K : Registry) (a : Analysis) :
    ((¬ inEnum (sliceAnalysisStatus K) a.Status ∨ a.CreatedAt.IsZero = true ∨
        a.FinishedAt.IsZero = true ∨
        ∃ av ∈ a.AnalysisVulnerabilities, ¬ validVulnerability K av.Vulnerability) →
      ∃ errs, validateAnalysisToCLIv2 K (some a) =
        Outcome.returns (some (Error.analysis errs))) ∧
    ∀ errs, validateAnalysisToCLIv2 K (some a) = Outcome.returns (some (Error.analysis errs)) →
      (errs.map Prod.fst).Nodup ∧
      ((errs.lookup AnalysisField.Status).isSome = true ↔
        ¬ inEnum (sliceAnalysisStatus K) a.Status) ∧
      ((errs.lookup AnalysisField.CreatedAt).isSome = true ↔ a.CreatedAt.IsZero = true) ∧
      ((errs.lookup AnalysisField.FinishedAt).isSome = true ↔ a.FinishedAt.IsZero = true) ∧
      ((errs.lookup AnalysisField.AnalysisVulnerabilities).isSome = true ↔
        ∃ av ∈ a.AnalysisVulnerabilities, ¬ validVulnerability K av.Vulnerability) ∧
      (a.Status = "" →
        errs.lookup AnalysisField.Status =
          some (AnalysisFieldError.rule RuleError.ErrRequired)) ∧
      (a.CreatedAt.IsZero = true →
        NilOrNotEmpty a.CreatedAt = some RuleError.ErrNilOrNotEmpty ∧
        errs.lookup AnalysisField.CreatedAt =
          some (AnalysisFieldError.rule RuleError.ErrRequired)) := by
  constructor
  · intro h
    obtain ⟨errs, herrs⟩ := validateAnalysisStruct_isSome_of_not_valid K a (by
      rintro ⟨_, hst, hc, hf, hv⟩
      rcases h with h | h | h | ⟨av, hav, hinv⟩
      · exact h hst
      · rw [h] at hc
        exact absurd hc (by simp)
      · rw [h] at hf
        exact absurd hf (by simp)
      · exact hinv (hv av hav))
    exact ⟨errs, by rw [validateAnalysisToCLIv2_some, herrs]; rfl⟩
  · intro errs h
    have herrs : validateAnalysisStruct K a = some errs := by
      rw [validateAnalysisToCLIv2_some] at h
      cases hs : validateAnalysisStruct K a with
      | none =>
        rw [hs] at h
        exact absurd h (by simp)
      | some errs2 =>
        rw [hs] at h
        simp only [Option.map_some', Outcome.returns.injEq, Option.some.injEq,
          Error.analysis.injEq] at h
        rw [h]
    obtain ⟨_, h2, h3, h4, h5⟩ := validateAnalysisStruct_lookup K a errs herrs
    refine ⟨validateAnalysisStruct_keys_nodup K a errs herrs, ?_, ?_, ?_, ?_, ?_, ?_⟩
    · rw [h2]
      unfold inEnum
      by_cases hs : a.Status = ""
      · simp [hs]
      · by_cases hm : a.Status ∈ sliceAnalysisStatus K <;> simp [hs, hm]
    · rw [h3]
      by_cases hc : a.CreatedAt.IsZero = true <;> simp [hc]
    · rw [h4]
      by_cases hf : a.FinishedAt.IsZero = true <;> simp [hf]
    · rw [h5]
      cases hl : validateVulnerabilitiesLoop K a.AnalysisVulnerabilities with
      | none =>
        have hall := (validateVulnerabilitiesLoop_eq_none K a.AnalysisVulnerabilities).mp hl
        simp only [Option.map_none', Option.isSome_none, Bool.false_eq_true, false_iff]
        rintro ⟨av, hav, hinv⟩
        exact hinv (hall av hav)
      | some verrs =>
        simp only [Option.map_some', Option.isSome_some, true_iff]
        by_contra hno
        have hall : ∀ av ∈ a.AnalysisVulnerabilities, validVulnerability K av.Vulnerability := by
          intro av hav
          by_contra hinv
          exact hno ⟨av, hav, hinv⟩
        rw [(validateVulnerabilitiesLoop_eq_none K a.AnalysisVulnerabilities).mpr hall] at hl
        exact absurd hl (by simp)
    · intro hs
      rw [h2]
      simp [hs]
    · intro hc
      refine ⟨?_, ?_⟩
      · simp [NilOrNotEmpty, Value.isNil, Value.IsEmpty, hc]
      · rw [h3]
        simp [hc]

/-- Witness of C20: an analysis with an empty status, a zero `CreatedAt` and an
invalid finding gets an error that names the three fields. -/
theorem top_level_violations_accumulated_witness :
    validateAnalysisToCLIv2 specRegistry (some severalViolationsAnalysis) =
      Outcome.returns (some (Error.analysis
        [(AnalysisField.Status, AnalysisFieldError.rule RuleError.ErrRequired),
         (AnalysisField.CreatedAt, AnalysisFieldError.rule RuleError.ErrRequired),
         (AnalysisField.AnalysisVulnerabilities,
           AnalysisFieldError.Errors
             [(VulnerabilityField.SecurityTool, RuleError.ErrInInvalid)])])) ∧
    ∃ errs, validateAnalysisToCLIv2 specRegistry (some severalViolationsAnalysis) =
      Outcome.returns (some (Error.analysis errs)) :=
  ⟨by decide, (top_level_violations_accumulated specRegistry severalViolationsAnalysis).1
    (Or.inr (Or.inl (by decide)))⟩

/-! ## Claims on the login credentials -/

theorem validate_required_length (v : String) :
    Validate v [Required, Length ozzovalidation.Length0 ozzovalidation.Length255] =
      if v = "" then some RuleError.ErrRequired
      else if 255 < v.utf8ByteSize then some RuleError.ErrLengthTooLong else none := by
  simp only [Validate, required_string]
  by_cases h : v = ""
  · simp [h]
  · have he : Value.IsEmpty v = false := by
      cases hv : Value.IsEmpty v with
      | false => rfl
      | true => exact absurd ((string_isEmpty v).mp hv) h
    by_cases hl : 255 < v.utf8ByteSize <;>
      simp [h, Length, he, Value.isNil, ozzovalidation.Length0, ozzovalidation.Length255,
        buildLengthRuleError, hl]

theorem loginCredentials_lookup (l : LoginCredentials)
    (errs : List (LoginCredentialsField × RuleError)) (h : l.Validate = some errs) :
    errs.lookup LoginCredentialsField.Username =
        (if l.Username = "" then some RuleError.ErrRequired
         else if 255 < l.Username.utf8ByteSize then some RuleError.ErrLengthTooLong else none) ∧
    errs.lookup LoginCredentialsField.Password =
        (if l.Password = "" then some RuleError.ErrRequired
         else if 255 < l.Password.utf8ByteSize then some RuleError.ErrLengthTooLong else none) := by
  unfold LoginCredentials.Validate at h
  rw [validateStruct_eq_some _ _ h]
  refine ⟨?_, ?_⟩
  all_goals
    rw [lookup_errors _ _ (by simp [Field])]
    simp only [Field, List.lookup, validate_required_length]
    rfl

theorem loginCredentials_validate_eq_none (l : LoginCredentials) :
    l.Validate = none ↔
      (l.Username ≠ "" ∧ l.Username.utf8ByteSize ≤ 255) ∧
      (l.Password ≠ "" ∧ l.Password.utf8ByteSize ≤ 255) := by
  unfold LoginCredentials.Validate
  rw [validateStruct_eq_none]
  simp only [Field, List.mem_cons, List.mem_singleton, forall_eq_or_imp, forall_eq,
    List.not_mem_nil, false_implies, implies_true, and_true, validate_required_length]
  by_cases h1 : l.Username = "" <;> by_cases h2 : 255 < l.Username.utf8ByteSize <;>
    by_cases h3 : l.Password = "" <;> by_cases h4 : 255 < l.Password.utf8ByteSize <;>
    first
      | (simp [h1, h2, h3, h4]; done)
      | (simp [h1, h2, h3, h4]; omega)

/-- C16: `LoginCredentials.Validate` returns no error exactly when `Username`
and `Password` are both non-empty and each has at most 255 bytes; an empty
username or password gets the entry `ErrRequired` under its field, and one of
more than 255 bytes the entry `ErrLengthTooLong`. -/
theorem loginCredentials_validate (l : LoginCredentials) :
    (l.Validate = none ↔
      (l.Username ≠ "" ∧ l.Username.utf8ByteSize ≤ 255) ∧
      (l.Password ≠ "" ∧ l.Password.utf8ByteSize ≤ 255)) ∧
    (l.Username = "" → ∃ errs, l.Validate = some errs ∧
      errs.lookup LoginCredentialsField.Username = some RuleError.ErrRequired) ∧
    (255 < l.Username.utf8ByteSize → ∃ errs, l.Validate = some errs ∧
      errs.lookup LoginCredentialsField.Username = some RuleError.ErrLengthTooLong) ∧
    (l.Password = "" → ∃ errs, l.Validate = some errs ∧
      errs.lookup LoginCredentialsField.Password = some RuleError.ErrRequired) ∧
    (255 < l.Password.utf8ByteSize → ∃ errs, l.Validate = some errs ∧
      errs.lookup LoginCredentialsField.Password = some RuleError.ErrLengthTooLong) := by
  have hsome : ¬ ((l.Username ≠ "" ∧ l.Username.utf8ByteSize ≤ 255) ∧
      (l.Password ≠ "" ∧ l.Password.utf8ByteSize ≤ 255)) → ∃ errs, l.Validate = some errs := by
    intro hn
    cases hv : l.Validate with
    | some errs => exact ⟨errs, rfl⟩
    | none => exact absurd ((loginCredentials_validate_eq_none l).mp hv) hn
  have hsize : ∀ v : String, 255 < v.utf8ByteSize → v ≠ "" := by
    intro v hv he
    subst he
    exact absurd hv (by decide)
  refine ⟨loginCredentials_validate_eq_none l, ?_, ?_, ?_, ?_⟩
  · intro h
    obtain ⟨errs, herrs⟩ := hsome (fun hn => hn.1.1 h)
    refine ⟨errs, herrs, ?_⟩
    rw [(loginCredentials_lookup l errs herrs).1]
    simp [h]
  · intro h
    obtain ⟨errs, herrs⟩ := hsome (fun hn => absurd hn.1.2 (by omega))
    refine ⟨errs, herrs, ?_⟩
    rw [(loginCredentials_lookup l errs herrs).1]
    simp [h, hsize _ h]
  · intro h
    obtain ⟨errs, herrs⟩ := hsome (fun hn => hn.2.1 h)
    refine ⟨errs, herrs, ?_⟩
    rw [(loginCredentials_lookup l errs herrs).2]
    simp [h]
  · intro h
    obtain ⟨errs, herrs⟩ := hsome (fun hn => absurd hn.2.2 (by omega))
    refine ⟨errs, herrs, ?_⟩
    rw [(loginCredentials_lookup l errs herrs).2]
    simp [h, hsize _ h]

set_option maxRecDepth 8000 in
/-- Witness of C16: a username of 128 characters and 256 bytes is too long. -/
theorem loginCredentials_validate_witness :
    longUsernameCredentials.Username.length = 128 ∧
    ∃ errs, longUsernameCredentials.Validate = some errs ∧
      errs.lookup LoginCredentialsField.Username = some RuleError.ErrLengthTooLong :=
  ⟨by decide, (loginCredentials_validate longUsernameCredentials).2.2.1 (by decide)⟩

end Horusec
